import Mathlib

/-!
Verification development for the SuperSpec markdown specification core.

Strings from the TypeScript source are embedded as `List Char`.  JavaScript
regular-expression behaviour is translated operation by operation:
`\s` is modelled by `jsWs` (the common JavaScript whitespace code points),
`.` by `dotChar` (any character except the four line terminators),
`String.prototype.trim`/`trimEnd` by `jsTrim`/`jsTrimEnd`, and
`String.prototype.split('\n')` by `splitLines`.
-/

/-- JavaScript whitespace (`\s`, `trim`): space, tab, newline, carriage
return, vertical tab, form feed, NBSP, BOM and the two Unicode line
separators.  (Exotic Unicode space separators are not modelled; no claim
involves them.) -/
def jsWs (c : Char) : Bool :=
  c = ' ' || c = '\t' || c = '\n' || c = '\r' || c = Char.ofNat 11 ||
  c = Char.ofNat 12 || c = Char.ofNat 160 || c = Char.ofNat 65279 ||
  c = Char.ofNat 8232 || c = Char.ofNat 8233

/-- Characters matched by the JavaScript regex `.` (anything but a line
terminator: LF, CR, LINE SEPARATOR, PARAGRAPH SEPARATOR). -/
def dotChar (c : Char) : Bool :=
  !(c = '\n' || c = '\r' || c = Char.ofNat 8232 || c = Char.ofNat 8233)

/-- `String.prototype.trim`. -/
def jsTrim (s : List Char) : List Char :=
  ((s.dropWhile jsWs).reverse.dropWhile jsWs).reverse

/-- `String.prototype.trimEnd`. -/
def jsTrimEnd (s : List Char) : List Char :=
  (s.reverse.dropWhile jsWs).reverse

/-- `content.split('\n')`. -/
def splitLines : List Char → List (List Char)
  | [] => [[]]
  | c :: cs =>
    if c = '\n' then [] :: splitLines cs
    else
      match splitLines cs with
      | [] => [[c]]
      | l :: ls => (c :: l) :: ls

/-- `lines.join('\n')`. -/
def joinLines : List (List Char) → List Char
  | [] => []
  | [l] => l
  | l :: ls => l ++ '\n' :: joinLines ls

/-- `String.prototype.includes` (substring test). -/
def containsSub (pat : List Char) : List Char → Bool
  | [] => pat.isEmpty
  | c :: cs => pat.isPrefixOf (c :: cs) || containsSub pat cs

/-- `noMatchIn pat s tail = true` means: no occurrence of `pat` starts at a
position inside `s` when scanning the concatenation `s ++ tail`. -/
def noMatchIn (pat : List Char) : List Char → List Char → Bool
  | [], _ => true
  | c :: cs, tail => !(pat.isPrefixOf (c :: (cs ++ tail))) && noMatchIn pat cs tail

/-! ## Delta operations (`src/cli/commands/archive.ts`) -/

/-- The four delta operation kinds. -/
inductive OpType where
  | renamed
  | removed
  | modified
  | added
deriving DecidableEq, Repr

/-- `DeltaOperation` from `archive.ts` (optional fields model the optional
TypeScript properties; a `some []` models a present-but-empty string, which
is falsy in JavaScript just like an absent one). -/
structure DeltaOperation where
  type : OpType
  requirement : List Char
  content : Option (List Char) := none
  fromName : Option (List Char) := none
  toName : Option (List Char) := none
deriving DecidableEq

/-- The literal `### Requirement:` used by the lookahead
`(?=### Requirement:|$)` of the REMOVED/MODIFIED patterns. -/
def marker : List Char := "### Requirement:".data

/-- The literal heading `### Requirement: {name}`. -/
def reqHeader (name : List Char) : List Char := marker ++ (' ' :: name)

/-- `GetSubstitution` for a replacement string when the pattern has no
capture groups: `$$`, `$&` (matched text), backtick-dollar (text before the
match) and `$'` (text after the match) are expanded, everything else is
literal. -/
def expandDollars (repl matched before after : List Char) : List Char :=
  match repl with
  | [] => []
  | c :: rest =>
    if c = '$' then
      match rest with
      | [] => ['$']
      | d :: rest2 =>
        if d = '$' then '$' :: expandDollars rest2 matched before after
        else if d = '&' then matched ++ expandDollars rest2 matched before after
        else if d = Char.ofNat 96 then before ++ expandDollars rest2 matched before after
        else if d = Char.ofNat 39 then after ++ expandDollars rest2 matched before after
        else '$' :: expandDollars (d :: rest2) matched before after
    else c :: expandDollars rest matched before after

/-- Global regex replace of
`### Requirement: {name}[\s\S]*?(?=### Requirement:|$)` by `repl`
(the REMOVED case passes `repl = []`, the MODIFIED case the trimmed content
plus two newlines).  `before` is the text preceding the current scan
position in the original string; `pending = some m` means a match with text
`m` so far is open and the lazy `[\s\S]*?` is extending it until the
lookahead (a following `### Requirement:` or the end of input) succeeds. -/
def modGo (name repl before : List Char) (pending : Option (List Char)) (s : List Char) :
    List Char :=
  match s with
  | [] =>
    match pending with
    | some m => expandDollars repl m before []
    | none => []
  | c :: cs =>
    match pending with
    | some m =>
      if marker.isPrefixOf (c :: cs) then
        expandDollars repl m before (c :: cs) ++ modGo name repl (before ++ m) none (c :: cs)
      else
        modGo name repl before (some (m ++ [c])) cs
    | none =>
      if (reqHeader name).isPrefixOf (c :: cs) then
        modGo name repl before (some (reqHeader name)) ((c :: cs).drop (reqHeader name).length)
      else
        c :: modGo name repl (before ++ [c]) none cs
termination_by (s.length, if pending.isSome then 1 else 0)
decreasing_by
  · apply Prod.Lex.right
    simp
  · apply Prod.Lex.left
    simp
  · apply Prod.Lex.left
    have hpos : 0 < (reqHeader name).length := by
      simp [reqHeader]
    simp only [List.length_drop, List.length_cons]
    omega
  · apply Prod.Lex.left
    simp

/-- Non-global string replace (`mainContent.replace(literal, replacement)`):
only the first occurrence of `pat` is replaced, with `GetSubstitution`
applied to the replacement. -/
def replaceFirstGo (pat repl before : List Char) : List Char → List Char
  | [] => []
  | c :: cs =>
    if pat.isPrefixOf (c :: cs) then
      expandDollars repl pat before ((c :: cs).drop pat.length) ++ (c :: cs).drop pat.length
    else
      c :: replaceFirstGo pat repl (before ++ [c]) cs

/-- One iteration of the `for (const op of sorted)` loop of
`applyDeltaToMainSpec`: transforms the accumulating `mainContent`. -/
def applyOp (text : List Char) (op : DeltaOperation) : List Char :=
  match op.type with
  | .renamed =>
    match op.fromName, op.toName with
    | some f, some t =>
      if f.isEmpty || t.isEmpty then text
      else replaceFirstGo (reqHeader f) (reqHeader t) [] text
    | _, _ => text
  | .removed => modGo op.requirement [] [] none text
  | .modified =>
    match op.content with
    | some c =>
      if c.isEmpty then text
      else modGo op.requirement (jsTrim c ++ ['\n', '\n']) [] none text
    | none => text
  | .added =>
    match op.content with
    | some c =>
      if c.isEmpty then text
      else jsTrimEnd text ++ ['\n', '\n'] ++ jsTrim c ++ ['\n']
    | none => text

/-- The numeric precedence `{ renamed: 0, removed: 1, modified: 2, added: 3 }`. -/
def opOrder : OpType → Nat
  | .renamed => 0
  | .removed => 1
  | .modified => 2
  | .added => 3

/-- The comparator `order[a.type] - order[b.type]` of the
`[...operations].sort(...)` call, as the corresponding `≤` test. -/
def opLE (a b : DeltaOperation) : Bool :=
  opOrder a.type ≤ opOrder b.type

/-- `[...operations].sort(comparator)`: JavaScript `Array.prototype.sort` is
specified to be stable, embedded as a stable merge sort. -/
def sortOps (ops : List DeltaOperation) : List DeltaOperation :=
  ops.mergeSort opLE

/-- The whole text-transformation loop of `applyDeltaToMainSpec`: sort the
operations into the fixed precedence and fold them over the baseline text. -/
def applyDelta (text : List Char) (ops : List DeltaOperation) : List Char :=
  (sortOps ops).foldl applyOp text

/-- Smart constructor for a REMOVED operation. -/
def mkRemovedOp (name : List Char) : DeltaOperation :=
  { type := .removed, requirement := name }

/-- Smart constructor for a MODIFIED operation. -/
def mkModifiedOp (name content : List Char) : DeltaOperation :=
  { type := .modified, requirement := name, content := some content }

/-- Smart constructor for a RENAMED operation. -/
def mkRenamedOp (fromN toN : List Char) : DeltaOperation :=
  { type := .renamed, requirement := fromN, fromName := some fromN, toName := some toN }

/-- Predicate used to state stability: the operations of one kind. -/
def hasType (k : OpType) (o : DeltaOperation) : Bool :=
  o.type = k

/-! ## Line recognizers (`src/core/parsers/spec-parser.ts`) -/

/-- `^{lit}(.+)$`: the literal prefix followed by a non-empty run of
`.`-matchable characters reaching the end of the line. -/
def headCapture (lit line : List Char) : Option (List Char) :=
  if lit.isPrefixOf line then
    let rest := line.drop lit.length
    if rest.isEmpty then none
    else if rest.all dotChar then some rest else none
  else none

def titleLit : List Char := "# ".data

def reqLit : List Char := "### Requirement: ".data

def scenLit : List Char := "#### Scenario: ".data

def purposeLit : List Char := "## Purpose".data

def requirementsLit : List Char := "## Requirements".data

def whenKw : List Char := "**WHEN**".data

def thenKw : List Char := "**THEN**".data

def andKw : List Char := "**AND**".data

/-- `/^# (.+)$/` (title line). -/
def titleCapture (line : List Char) : Option (List Char) :=
  headCapture titleLit line

/-- `/^### Requirement: (.+)$/`. -/
def reqCapture (line : List Char) : Option (List Char) :=
  headCapture reqLit line

/-- `/^#### Scenario: (.+)$/`. -/
def scenCapture (line : List Char) : Option (List Char) :=
  headCapture scenLit line

/-- `/^{lit}\s*$/` (used for `## Purpose` and `## Requirements`). -/
def sectionHeadingTest (lit line : List Char) : Bool :=
  lit.isPrefixOf line && (line.drop lit.length).all jsWs

/-- `/^\s*-\s*{kw}\s*(.+)$/`: the greedy `\s*` before the capture backs off
just enough to leave at least one character for `(.+)`, which must then
consist of `.`-matchable characters up to the end of the line. -/
def clauseCapture (kw line : List Char) : Option (List Char) :=
  match line.dropWhile jsWs with
  | [] => none
  | c :: cs =>
    if c = '-' then
      let r2 := cs.dropWhile jsWs
      if kw.isPrefixOf r2 then
        let t := r2.drop kw.length
        if t.isEmpty then none
        else
          let cap := t.drop (min (t.takeWhile jsWs).length (t.length - 1))
          if cap.all dotChar then some cap else none
      else none
    else none

/-- `/^\s*-\s*{kw}/` (the validator only tests, it does not capture). -/
def clauseTest (kw line : List Char) : Bool :=
  match line.dropWhile jsWs with
  | [] => false
  | c :: cs => c = '-' && kw.isPrefixOf (cs.dropWhile jsWs)

/-- `/^# .+/` without an end anchor (the validator title test). -/
def titleTest (line : List Char) : Bool :=
  titleLit.isPrefixOf line &&
    (match (line.drop titleLit.length).head? with
     | some c => dotChar c
     | none => false)

/-! ## Title suffix stripping -/

/-- ASCII lower-casing, enough for the `/i` patterns of the source (whose
letters are all ASCII). -/
def lowerChar (c : Char) : Char :=
  if 'A' ≤ c && c ≤ 'Z' then Char.ofNat (c.toNat + 32) else c

/-- Case-insensitive prefix test. -/
def ciPrefixOf : List Char → List Char → Bool
  | [], _ => true
  | _ :: _, [] => false
  | a :: as, b :: bs => (lowerChar a = lowerChar b) && ciPrefixOf as bs

def specWord : List Char := "Specification".data

/-- Does `/\s*Specification\s*$/i` match the whole of `s` starting at its
first position?  (`Specification` starts with a non-whitespace letter, so
the greedy `\s*` must consume exactly the leading whitespace run.) -/
def matchesSuffixAt (s : List Char) : Bool :=
  let t := s.dropWhile jsWs
  ciPrefixOf specWord t && (t.drop specWord.length).all jsWs

/-- `title.replace(/\s*Specification\s*$/i, '')`: a match always extends to
the end of the string, so the result is the prefix before the first
position where the pattern matches. -/
def stripSpecSuffix : List Char → List Char
  | [] => []
  | c :: cs => if matchesSuffixAt (c :: cs) then [] else c :: stripSpecSuffix cs

/-! ## Spec model and parser -/

structure Scenario where
  name : List Char
  whenClause : List Char
  thenClauses : List (List Char)
  andClauses : List (List Char)
deriving DecidableEq, Repr

structure Requirement where
  name : List Char
  description : List Char
  scenarios : List Scenario
deriving DecidableEq, Repr

structure Spec where
  title : List Char
  purpose : List Char
  requirements : List Requirement
deriving DecidableEq, Repr

/-- The parser's loop state (`currentRequirement`, `currentScenario`,
`inDescription`, `descriptionLines`). -/
structure PState where
  title : List Char
  requirements : List Requirement
  currentRequirement : Option Requirement
  currentScenario : Option Scenario
  inDescription : Bool
  descriptionLines : List (List Char)
deriving DecidableEq

def initPState : PState :=
  { title := [], requirements := [], currentRequirement := none,
    currentScenario := none, inDescription := false, descriptionLines := [] }

/-- The "save previous" block run when a new requirement heading is seen:
push the open scenario into the open requirement, overwrite its description
with the joined, trimmed buffer, and append it to the result. -/
def closeReq (s : PState) : PState :=
  match s.currentRequirement with
  | none => s
  | some r =>
    let r1 :=
      match s.currentScenario with
      | some sc => { r with scenarios := r.scenarios ++ [sc] }
      | none => r
    let r2 := { r1 with description := jsTrim (joinLines s.descriptionLines) }
    { s with requirements := s.requirements ++ [r2] }

/-- One iteration of the `for (const line of lines)` loop of `parseSpec`,
with the regex tests in source order. -/
def pstep (s : PState) (line : List Char) : PState :=
  match titleCapture line with
  | some cap => { s with title := jsTrim (stripSpecSuffix cap) }
  | none =>
  if sectionHeadingTest purposeLit line then { s with inDescription := false }
  else if sectionHeadingTest requirementsLit line then { s with inDescription := false }
  else
  match reqCapture line with
  | some name =>
    let s1 := closeReq s
    { s1 with
      currentRequirement := some { name := name, description := [], scenarios := [] },
      currentScenario := none, inDescription := true, descriptionLines := [] }
  | none =>
  match scenCapture line with
  | some name =>
    let s1 :=
      match s.currentScenario, s.currentRequirement with
      | some sc, some r =>
        { s with currentRequirement := some { r with scenarios := r.scenarios ++ [sc] } }
      | _, _ => s
    let s2 :=
      match s1.currentRequirement with
      | some r =>
        if s1.inDescription then
          { s1 with
            currentRequirement :=
              some { r with description := jsTrim (joinLines s1.descriptionLines) },
            inDescription := false }
        else s1
      | none => s1
    { s2 with
      currentScenario := some { name := name, whenClause := [], thenClauses := [], andClauses := [] } }
  | none =>
  match clauseCapture whenKw line, s.currentScenario with
  | some cap, some sc => { s with currentScenario := some { sc with whenClause := cap } }
  | _, _ =>
  match clauseCapture thenKw line, s.currentScenario with
  | some cap, some sc =>
    { s with currentScenario := some { sc with thenClauses := sc.thenClauses ++ [cap] } }
  | _, _ =>
  match clauseCapture andKw line, s.currentScenario with
  | some cap, some sc =>
    { s with currentScenario := some { sc with andClauses := sc.andClauses ++ [cap] } }
  | _, _ =>
  if s.inDescription && !(jsTrim line).isEmpty then
    { s with descriptionLines := s.descriptionLines ++ [line] }
  else s

/-- The "don't forget the last ones" epilogue of `parseSpec` (note: unlike
`closeReq`, the description is only overwritten when `inDescription` is
still set). -/
def finishParse (s : PState) : Spec :=
  let reqs :=
    match s.currentRequirement with
    | none => s.requirements
    | some r =>
      let r1 :=
        match s.currentScenario with
        | some sc => { r with scenarios := r.scenarios ++ [sc] }
        | none => r
      let r2 :=
        if s.inDescription then
          { r1 with description := jsTrim (joinLines s.descriptionLines) }
        else r1
      s.requirements ++ [r2]
  { title := s.title, purpose := [], requirements := reqs }

/-- `parseSpec` on the document body.  The source first runs `gray-matter`
to strip an optional leading `---`-delimited front-matter block; for a body
with no such block (every input in this development) that step returns the
text unchanged and an empty metadata record, so it is not modelled. -/
def parseSpec (body : List Char) : Spec :=
  finishParse ((splitLines body).foldl pstep initPState)

/-! ## Serializer (`serializeSpec`) -/

def whenLinePre : List Char := "- **WHEN** ".data

def thenLinePre : List Char := "- **THEN** ".data

def andLinePre : List Char := "- **AND** ".data

/-- The lines pushed for one scenario. -/
def scenarioLines (sc : Scenario) : List (List Char) :=
  [scenLit ++ sc.name, whenLinePre ++ sc.whenClause] ++
    sc.thenClauses.map (fun t => thenLinePre ++ t) ++
    sc.andClauses.map (fun a => andLinePre ++ a) ++ [[]]

/-- The lines pushed for one requirement. -/
def requirementLines (r : Requirement) : List (List Char) :=
  [reqLit ++ r.name, []] ++
    (if r.description.isEmpty then [] else [r.description, []]) ++
    (r.scenarios.map scenarioLines).flatten

/-- The full `lines` array built by `serializeSpec`. -/
def specLines (S : Spec) : List (List Char) :=
  [titleLit ++ S.title ++ (' ' :: specWord), []] ++
    (if S.purpose.isEmpty then [] else [purposeLit, [], S.purpose, []]) ++
    [requirementsLit, []] ++
    (S.requirements.map requirementLines).flatten

/-- `serializeSpec`: `lines.join('\n')`. -/
def serializeSpec (S : Spec) : List Char :=
  joinLines (specLines S)

/-! ## Validator (`src/core/config/project-config.ts`) -/

inductive Severity where
  | error
  | warning
deriving DecidableEq, Repr

/-- `ValidationIssue` (the source's `type` field holds the strings
`'error'`/`'warning'`, modelled by `Severity`). -/
structure VIssue where
  severity : Severity
  code : List Char
  message : List Char
  line : Option Nat := none
deriving DecidableEq, Repr

/-- Template-literal interpolation of a nullable string (`null` prints as
`"null"`). -/
def optName : Option (List Char) → List Char
  | none => "null".data
  | some r => r

def missingWhenIssue (sc : List Char) : VIssue :=
  { severity := .error, code := "MISSING_WHEN".data,
    message := "Scenario \"".data ++ sc ++ "\" is missing WHEN clause".data }

def missingThenIssue (sc : List Char) : VIssue :=
  { severity := .error, code := "MISSING_THEN".data,
    message := "Scenario \"".data ++ sc ++ "\" is missing THEN clause".data }

def dupReqIssue (name : List Char) (i : Nat) : VIssue :=
  { severity := .error, code := "DUPLICATE_REQUIREMENT".data,
    message := "Duplicate requirement name: \"".data ++ name ++ "\"".data, line := some i }

def orphanScenIssue (name : List Char) (i : Nat) : VIssue :=
  { severity := .error, code := "ORPHAN_SCENARIO".data,
    message := "Scenario \"".data ++ name ++ "\" is not under a Requirement".data,
    line := some i }

def dupScenIssue (name : List Char) (cur : Option (List Char)) (i : Nat) : VIssue :=
  { severity := .error, code := "DUPLICATE_SCENARIO".data,
    message := "Duplicate scenario name: \"".data ++ name ++ "\" under \"".data ++
      optName cur ++ "\"".data,
    line := some i }

def orphanWhenIssue (i : Nat) : VIssue :=
  { severity := .error, code := "ORPHAN_WHEN".data,
    message := "WHEN clause found outside of a Scenario".data, line := some i }

def orphanThenIssue (i : Nat) : VIssue :=
  { severity := .error, code := "ORPHAN_THEN".data,
    message := "THEN clause found outside of a Scenario".data, line := some i }

def weakIssue (i : Nat) : VIssue :=
  { severity := .warning, code := "WEAK_LANGUAGE".data,
    message := "Consider using SHALL/MUST for mandatory behavior".data, line := some i }

def missingTitleIssue : VIssue :=
  { severity := .error, code := "MISSING_TITLE".data,
    message := "Spec must have a title (# header)".data }

def missingPurposeIssue : VIssue :=
  { severity := .warning, code := "MISSING_PURPOSE".data,
    message := "Spec should have a Purpose section".data }

def removedNoReasonIssue : VIssue :=
  { severity := .warning, code := "REMOVED_NO_REASON".data,
    message := "REMOVED requirements should include a Reason".data }

/-- `\w` (ASCII word characters). -/
def wordChar (c : Char) : Bool :=
  ('a' ≤ c && c ≤ 'z') || ('A' ≤ c && c ≤ 'Z') || ('0' ≤ c && c ≤ '9') || c = '_'

/-- `\b` next to a word character: the adjacent position must not hold a
word character. -/
def wordBoundaryOk : Option Char → Bool
  | none => true
  | some c => !wordChar c

def ciCharEq (a b : Char) : Bool := lowerChar a = lowerChar b

def csCharEq (a b : Char) : Bool := a = b

/-- Does `\b{w}\b` match at the head of `s` (under character equality
`eqf`)?  All characters of the source's `w` are word characters. -/
def wordHeadMatch (eqf : Char → Char → Bool) : List Char → List Char → Bool
  | [], rest => wordBoundaryOk rest.head?
  | _ :: _, [] => false
  | a :: as, b :: bs => eqf a b && wordHeadMatch eqf as bs

/-- Scan for `\b{w}\b` anywhere in the line (`prev` is the character before
the current position). -/
def hasWordGo (eqf : Char → Char → Bool) (w : List Char) (prev : Option Char) :
    List Char → Bool
  | [] => false
  | c :: cs =>
    (wordBoundaryOk prev && wordHeadMatch eqf w (c :: cs)) || hasWordGo eqf w (some c) cs

def shouldLower : List Char := "should".data

def shouldUpper : List Char := "SHOULD".data

/-- `line.match(/\bshould\b/i) && !line.match(/\bSHOULD\b/)`. -/
def weakLanguageLine (line : List Char) : Bool :=
  hasWordGo ciCharEq shouldLower none line && !(hasWordGo csCharEq shouldUpper none line)

/-- The validator's per-line loop state. -/
structure VState where
  errors : List VIssue
  warnings : List VIssue
  requirementCount : Nat
  scenarioCount : Nat
  currentRequirement : Option (List Char)
  currentScenario : Option (List Char)
  hasWhen : Bool
  hasThen : Bool
  seenRequirements : List (List Char)
  seenScenarios : List (List Char)
deriving DecidableEq

/-- The MISSING_WHEN/MISSING_THEN issues pushed when the open scenario is
closed. -/
def closeScenarioIssues (s : VState) : List VIssue :=
  match s.currentScenario with
  | some sc =>
    (if !s.hasWhen then [missingWhenIssue sc] else []) ++
      (if !s.hasThen then [missingThenIssue sc] else [])
  | none => []

/-- One iteration of the `for (let i = 0; ...)` loop of `validateSpec`;
`p.1` is the 1-based line number.  (`Set.add` is modelled by appending,
which has the same `has` semantics.) -/
def vstep (isDelta : Bool) (s : VState) (p : Nat × List Char) : VState :=
  match reqCapture p.2 with
  | some name =>
    let e2 := if s.seenRequirements.contains name then [dupReqIssue name p.1] else []
    { s with
      errors := s.errors ++ closeScenarioIssues s ++ e2,
      seenRequirements := s.seenRequirements ++ [name],
      currentRequirement := some name, currentScenario := none,
      hasWhen := false, hasThen := false,
      requirementCount := s.requirementCount + 1 }
  | none =>
  match scenCapture p.2 with
  | some name =>
    let e2 := if s.currentRequirement.isNone && !isDelta then [orphanScenIssue name p.1] else []
    let key := optName s.currentRequirement ++ ('/' :: name)
    let e3 := if s.seenScenarios.contains key then [dupScenIssue name s.currentRequirement p.1] else []
    { s with
      errors := s.errors ++ closeScenarioIssues s ++ e2 ++ e3,
      seenScenarios := s.seenScenarios ++ [key],
      currentScenario := some name, hasWhen := false, hasThen := false,
      scenarioCount := s.scenarioCount + 1 }
  | none =>
  if clauseTest whenKw p.2 then
    { s with
      errors := s.errors ++ (if s.currentScenario.isNone then [orphanWhenIssue p.1] else []),
      hasWhen := true }
  else if clauseTest thenKw p.2 then
    { s with
      errors := s.errors ++ (if s.currentScenario.isNone then [orphanThenIssue p.1] else []),
      hasThen := true }
  else if s.currentRequirement.isSome && s.currentScenario.isNone && weakLanguageLine p.2 then
    { s with warnings := s.warnings ++ [weakIssue p.1] }
  else s

def remHeadLit : List Char := "## REMOVED Requirements".data

def remGateLit : List Char := "## REMOVED".data

def hhLit : List Char := "## ".data

def reasonLit : List Char := "**Reason**".data

/-- The lazy `[\s\S]*?(?=## |$)` tail of the REMOVED-section regex: take
characters until the next occurrence of `## ` (or the end of input). -/
def takeToHH : List Char → List Char
  | [] => []
  | c :: cs => if hhLit.isPrefixOf (c :: cs) then [] else c :: takeToHH cs

/-- `content.match(/## REMOVED Requirements[\s\S]*?(?=## |$)/)`: the first
match, when any. -/
def removedSectionAux : List Char → Option (List Char)
  | [] => none
  | c :: cs =>
    if remHeadLit.isPrefixOf (c :: cs) then
      some (remHeadLit ++ takeToHH ((c :: cs).drop remHeadLit.length))
    else removedSectionAux cs

/-- `validateDeltaSpec`: the only observable effect is the possible
`REMOVED_NO_REASON` warning (the MODIFIED branch is empty and
`hasDeltaSections` is unused in the source). -/
def deltaWarnings (content : List Char) : List VIssue :=
  if containsSub remGateLit content then
    match removedSectionAux content with
    | some sec => if !(containsSub reasonLit sec) then [removedNoReasonIssue] else []
    | none => []
  else []

structure VResult where
  valid : Bool
  errors : List VIssue
  warnings : List VIssue
  reqStat : Nat
  scenStat : Nat
deriving DecidableEq

/-- `validateSpec(content, name, isDelta)`.  The `name` parameter is unused
in the source body and kept for fidelity; `stats.requirements`/`scenarios`
appear as `reqStat`/`scenStat`. -/
def validateSpec (content : List Char) (_nm : List Char) (isDelta : Bool) : VResult :=
  let lines := splitLines content
  let e0 := if !(lines.any titleTest) && !isDelta then [missingTitleIssue] else []
  let w0 := if !(containsSub purposeLit content) && !isDelta then [missingPurposeIssue] else []
  let s0 : VState :=
    { errors := e0, warnings := w0, requirementCount := 0, scenarioCount := 0,
      currentRequirement := none, currentScenario := none, hasWhen := false,
      hasThen := false, seenRequirements := [], seenScenarios := [] }
  let s1 := (List.enumFrom 1 lines).foldl (vstep isDelta) s0
  let eF := s1.errors ++ closeScenarioIssues s1
  let wF := s1.warnings ++ (if isDelta then deltaWarnings content else [])
  { valid := eF.isEmpty, errors := eF, warnings := wF,
    reqStat := s1.requirementCount, scenStat := s1.scenarioCount }

/-! ## Cross-spec validation (`validateSpecSet`) -/

/-- `Map.set`: replace in place or append. -/
def setAssoc : List (List Char × List Char) → List Char → List Char →
    List (List Char × List Char)
  | [], k, v => [(k, v)]
  | (k0, v0) :: rest, k, v =>
    if k0 = k then (k0, v) :: rest else (k0, v0) :: setAssoc rest k v

/-- `Map.get`. -/
def getAssoc : List (List Char × List Char) → List Char → Option (List Char)
  | [], _ => none
  | (k0, v0) :: rest, k => if k0 = k then some v0 else getAssoc rest k

/-- `content.matchAll(/^### Requirement: (.+)$/gm)`: one capture per
matching line. -/
def extractReqNames (content : List Char) : List (List Char) :=
  (splitLines content).filterMap reqCapture

def crossIssue (r owner nm : List Char) : VIssue :=
  { severity := .error, code := "CROSS_SPEC_DUPLICATE".data,
    message := "Requirement \"".data ++ r ++ "\" exists in both \"".data ++ owner ++
      "\" and \"".data ++ nm ++ "\"".data }

/-- Processing one extracted requirement name of the document `nm`. -/
def crossStepName (nm : List Char)
    (acc : List (List Char × List Char) × List VIssue) (r : List Char) :
    List (List Char × List Char) × List VIssue :=
  let issues2 :=
    match getAssoc acc.1 r with
    | some owner => acc.2 ++ [crossIssue r owner nm]
    | none => acc.2
  (setAssoc acc.1 r nm, issues2)

structure SpecSetResult where
  valid : Bool
  issues : List VIssue
deriving DecidableEq

/-- `validateSpecSet`: the `specs` map is modelled as its insertion-ordered
entry list. -/
def validateSpecSet (specs : List (List Char × List Char)) : SpecSetResult :=
  let acc :=
    specs.foldl (fun acc p => (extractReqNames p.2).foldl (crossStepName p.1) acc) ([], [])
  { valid := (acc.2.filter (fun i => i.severity = .error)).isEmpty, issues := acc.2 }

/-! ## Validity of Spec components (for the round-trip property) -/

/-- A requirement or scenario name survives its heading line: non-empty and
free of line terminators. -/
def validName (n : List Char) : Bool :=
  !n.isEmpty && n.all dotChar

/-- A WHEN/THEN/AND clause survives its line: non-empty, free of line
terminators, and not starting with whitespace (which the greedy `\s*` of
the clause regex would swallow). -/
def validClause : List Char → Bool
  | [] => false
  | h :: t => !jsWs h && (h :: t).all dotChar

/-- A title survives serialization: non-empty, free of line terminators,
and already trimmed. -/
def validTitle (t : List Char) : Bool :=
  !t.isEmpty && t.all dotChar && !jsWs (t.headD ' ') && !jsWs (t.getLastD ' ')

/-- A free-text line is inert when it is not mistaken for a title,
requirement or scenario heading. -/
def inertLine (l : List Char) : Bool :=
  (titleCapture l).isNone && (reqCapture l).isNone && (scenCapture l).isNone

/-- Free text (purpose, description) whose lines are all inert. -/
def validFreeText (d : List Char) : Bool :=
  (splitLines d).all inertLine

def validScenario (sc : Scenario) : Bool :=
  validName sc.name && validClause sc.whenClause && !sc.thenClauses.isEmpty &&
    sc.thenClauses.all validClause && sc.andClauses.all validClause

def validRequirement (r : Requirement) : Bool :=
  validName r.name && validFreeText r.description && r.scenarios.all validScenario

def validSpec (S : Spec) : Bool :=
  validTitle S.title && validFreeText S.purpose && S.requirements.all validRequirement

/-- Projection of a requirement to the data the round-trip property
promises to preserve: its name and its scenarios (names and when/then/and
content); the description is exempt. -/
def reqProj (r : Requirement) : List Char × List Scenario :=
  (r.name, r.scenarios)

/-- Number of issues carrying a given code. -/
def countCode (code : List Char) (l : List VIssue) : Nat :=
  l.countP (fun i => i.code == code)

/-- Modelled from the spec: "a requirement name … appears under more than
one document name" — some extracted requirement name occurs in at least two
documents of distinct names.  (Stated from the claim's words, to be
compared with what `validateSpecSet` actually reports.) -/
def someNameInTwoDocs (specs : List (List Char × List Char)) : Bool :=
  (specs.map (fun p => extractReqNames p.2)).flatten.any (fun r =>
    2 ≤ ((specs.filter (fun p => (extractReqNames p.2).contains r)).map Prod.fst).dedup.length)


/-- Modelled from the spec: the lines of the `## REMOVED Requirements`
block — the lines strictly after that heading line, up to (not including)
the next `## `-prefixed section heading line. -/
def removedBlockLines (content : List Char) : List (List Char) :=
  (((splitLines content).dropWhile
      (fun l => !(remHeadLit.isPrefixOf l))).drop 1).takeWhile
    (fun l => !(hhLit.isPrefixOf l))

/-- Modelled from the spec: folding over the block lines, tracking whether
an entry is open and whether it has seen a `**Reason**` line, counting
closed entries that lack one. -/
def lackingFold (acc : Bool × Bool × Nat) (l : List Char) : Bool × Bool × Nat :=
  if (reqCapture l).isSome then
    (true, false, acc.2.2 + (if acc.1 && !acc.2.1 then 1 else 0))
  else if reasonLit.isPrefixOf l then (acc.1, true, acc.2.2)
  else acc

/-- Modelled from the spec: "every entry in the `## REMOVED Requirements`
block that lacks a `**Reason**` line" — the number of `### Requirement:`
entries of the block with no `**Reason**` line before the next entry. -/
def entriesLackingReason (content : List Char) : Nat :=
  let acc := (removedBlockLines content).foldl lackingFold (false, false, 0)
  acc.2.2 + (if acc.1 && !acc.2.1 then 1 else 0)


/-- The initial loop state of `validateSpec` (errors/warnings already carry
the title and purpose findings). -/
def initVState (content : List Char) (isDelta : Bool) : VState :=
  { errors :=
      if !((splitLines content).any titleTest) && !isDelta then [missingTitleIssue] else [],
    warnings :=
      if !(containsSub purposeLit content) && !isDelta then [missingPurposeIssue] else [],
    requirementCount := 0, scenarioCount := 0, currentRequirement := none,
    currentScenario := none, hasWhen := false, hasThen := false,
    seenRequirements := [], seenScenarios := [] }


/-- The nested fold of `validateSpecSet`, flattened to one step per
extracted (document, requirement-name) pair. -/
def crossPairStep (acc : List (List Char × List Char) × List VIssue)
    (p : List Char × List Char) : List (List Char × List Char) × List VIssue :=
  crossStepName p.1 acc p.2

/-- All (document, requirement-name) pairs extracted by `validateSpecSet`,
in processing order. -/
def pairsOf (specs : List (List Char × List Char)) : List (List Char × List Char) :=
  (specs.map (fun p => (extractReqNames p.2).map (fun r => (p.1, r)))).flatten


/-- `[sc]` when a scenario is open, `[]` otherwise (the conditional push of
`currentScenario`). -/
def optList : Option Scenario → List Scenario
  | some sc => [sc]
  | none => []

/-- The projection of the parser state to the data the round-trip claim is
about: the title, the closed requirements, the open requirement and the
open scenario — each requirement reduced by `reqProj` (description
dropped).  `inDescription` and the description buffer do not appear: they
influence only descriptions. -/
structure ProjState where
  title : List Char
  reqs : List (List Char × List Scenario)
  curReq : Option (List Char × List Scenario)
  curScen : Option Scenario
deriving DecidableEq

def sProj (s : PState) : ProjState :=
  { title := s.title, reqs := s.requirements.map reqProj,
    curReq := s.currentRequirement.map reqProj, curScen := s.currentScenario }

/-- The projected flush of the open requirement (run at a requirement
heading and at end of input). -/
def reqFlushList (p : ProjState) : List (List Char × List Scenario) :=
  match p.curReq with
  | none => []
  | some (rn, scs) => [(rn, scs ++ optList p.curScen)]

/-- `pstep` transported along `sProj` (proved equal below). -/
def projStep (p : ProjState) (line : List Char) : ProjState :=
  match titleCapture line with
  | some cap => { p with title := jsTrim (stripSpecSuffix cap) }
  | none =>
  if sectionHeadingTest purposeLit line then p
  else if sectionHeadingTest requirementsLit line then p
  else
  match reqCapture line with
  | some name =>
    { title := p.title, reqs := p.reqs ++ reqFlushList p,
      curReq := some (name, []), curScen := none }
  | none =>
  match scenCapture line with
  | some name =>
    let cur2 :=
      (match p.curScen, p.curReq with
      | some sc, some (rn, scs) => some (rn, scs ++ [sc])
      | _, _ => p.curReq)
    { p with
      curReq := cur2,
      curScen := some { name := name, whenClause := [], thenClauses := [], andClauses := [] } }
  | none =>
  match clauseCapture whenKw line, p.curScen with
  | some cap, some sc => { p with curScen := some { sc with whenClause := cap } }
  | _, _ =>
  match clauseCapture thenKw line, p.curScen with
  | some cap, some sc =>
    { p with curScen := some { sc with thenClauses := sc.thenClauses ++ [cap] } }
  | _, _ =>
  match clauseCapture andKw line, p.curScen with
  | some cap, some sc =>
    { p with curScen := some { sc with andClauses := sc.andClauses ++ [cap] } }
  | _, _ => p

/-- Accumulated effect of a run of scenario blocks on the open requirement:
each block flushes the previously open scenario and leaves its own open. -/
def scensEnd (acc : List Scenario) (q : Option Scenario) :
    List Scenario → List Scenario × Option Scenario
  | [] => (acc, q)
  | sc :: rest => scensEnd (acc ++ optList q) (some sc) rest

/-- The requirement list obtained if the input ended in this state. -/
def projFinish (p : ProjState) : List (List Char × List Scenario) :=
  p.reqs ++ reqFlushList p

/-- The actual line stream a serialized requirement contributes to the
parser: its pushed lines, re-split at the newlines inside its (possibly
multi-line) description. -/
def reqStream (r : Requirement) : List (List Char) :=
  ((requirementLines r).map splitLines).flatten

/-- A Spec meeting the claim's stated conditions (non-empty title, names,
when, and a then) whose round-trip is broken by the leading space of its
WHEN clause. -/
def rtCexSpec : Spec :=
  { title := ("T").data,
    purpose := [],
    requirements :=
      [{ name := ("R").data,
         description := [],
         scenarios :=
           [{ name := ("S").data,
              whenClause := (" x").data,
              thenClauses := [("t").data],
              andClauses := [] }] }] }

/-- A concrete valid Spec exercising purpose, description, two scenarios
and an AND clause. -/
def rtWitSpec : Spec :=
  { title := ("Auth").data,
    purpose := ("Who may log in.").data,
    requirements :=
      [{ name := ("Login").data,
         description := ("Core flow.").data,
         scenarios :=
           [{ name := ("Valid").data,
              whenClause := ("user signs in").data,
              thenClauses := [("grant access").data],
              andClauses := [("log it").data] },
            { name := ("Invalid").data,
              whenClause := ("password wrong").data,
              thenClauses := [("deny").data],
              andClauses := [] }] },
       { name := ("Logout").data,
         description := [],
         scenarios :=
           [{ name := ("Basic").data,
              whenClause := ("user logs out").data,
              thenClauses := [("end session").data],
              andClauses := [] }] }] }

/-! # Theorems -/

/-! ## C1: fixed precedence, stable within each kind -/

theorem opLE_trans : ∀ a b c : DeltaOperation, opLE a b → opLE b c → opLE a c := by
  intro a b c hab hbc
  simp only [opLE, decide_eq_true_eq] at *
  omega

theorem opLE_total : ∀ a b : DeltaOperation, opLE a b || opLE b a := by
  intro a b
  simp only [opLE, Bool.or_eq_true, decide_eq_true_eq]
  omega

theorem filter_hasType_pairwise (k : OpType) (ops : List DeltaOperation) :
    (ops.filter (hasType k)).Pairwise (fun a b => opLE a b = true) := by
  apply List.pairwise_of_forall_mem_list
  intro a ha b hb
  rw [List.mem_filter] at ha hb
  have ha2 := ha.2
  have hb2 := hb.2
  simp only [hasType, decide_eq_true_eq] at ha2 hb2
  simp [opLE, ha2, hb2]

theorem sortOps_filter (k : OpType) (ops : List DeltaOperation) :
    (sortOps ops).filter (hasType k) = ops.filter (hasType k) := by
  have hsub : List.Sublist (ops.filter (hasType k)) (sortOps ops) :=
    List.sublist_mergeSort opLE_trans opLE_total (filter_hasType_pairwise k ops)
      (List.filter_sublist _)
  have hperm : List.Perm ((sortOps ops).filter (hasType k)) (ops.filter (hasType k)) :=
    (List.mergeSort_perm ops opLE).filter _
  have hsub2 : List.Sublist (ops.filter (hasType k)) ((sortOps ops).filter (hasType k)) := by
    have h := hsub.filter (hasType k)
    simpa [List.filter_filter, Bool.and_self] using h
  exact (hsub2.eq_of_length hperm.length_eq.symm).symm

theorem sorted_decomp :
    ∀ l : List DeltaOperation, l.Pairwise (fun a b => opLE a b = true) →
      l = l.filter (hasType .renamed) ++ l.filter (hasType .removed) ++
          l.filter (hasType .modified) ++ l.filter (hasType .added) := by
  intro l
  induction l with
  | nil => intro _; rfl
  | cons x xs ih =>
    intro hp
    rw [List.pairwise_cons] at hp
    obtain ⟨hx, hxs⟩ := hp
    have hnil : ∀ k : OpType, opOrder k < opOrder x.type →
        xs.filter (hasType k) = [] := by
      intro k hk
      rw [List.filter_eq_nil_iff]
      intro a ha hak
      have hle := hx a ha
      simp only [opLE, decide_eq_true_eq] at hle
      simp only [hasType, decide_eq_true_eq] at hak
      rw [hak] at hle
      omega
    have ihe := ih hxs
    cases htype : x.type with
    | renamed =>
      simp only [List.filter_cons, hasType, htype, decide_eq_true_eq]
      norm_num
      conv_lhs => rw [ihe]
      simp
    | removed =>
      have h0 : xs.filter (hasType .renamed) = [] := hnil _ (by rw [htype]; decide)
      simp only [List.filter_cons, hasType, htype, decide_eq_true_eq]
      norm_num
      rw [h0] at ihe ⊢
      conv_lhs => rw [ihe]
      simp
    | modified =>
      have h0 : xs.filter (hasType .renamed) = [] := hnil _ (by rw [htype]; decide)
      have h1 : xs.filter (hasType .removed) = [] := hnil _ (by rw [htype]; decide)
      simp only [List.filter_cons, hasType, htype, decide_eq_true_eq]
      norm_num
      rw [h0, h1] at ihe ⊢
      conv_lhs => rw [ihe]
      simp
    | added =>
      have h0 : xs.filter (hasType .renamed) = [] := hnil _ (by rw [htype]; decide)
      have h1 : xs.filter (hasType .removed) = [] := hnil _ (by rw [htype]; decide)
      have h2 : xs.filter (hasType .modified) = [] := hnil _ (by rw [htype]; decide)
      simp only [List.filter_cons, hasType, htype, decide_eq_true_eq]
      norm_num
      rw [h0, h1, h2] at ihe ⊢
      conv_lhs => rw [ihe]
      simp

theorem sortOps_eq (ops : List DeltaOperation) :
    sortOps ops = ops.filter (hasType .renamed) ++ ops.filter (hasType .removed) ++
      ops.filter (hasType .modified) ++ ops.filter (hasType .added) := by
  have hdec := sorted_decomp (sortOps ops)
    (List.sorted_mergeSort opLE_trans opLE_total ops)
  rw [hdec, sortOps_filter, sortOps_filter, sortOps_filter, sortOps_filter]

/-- C1: `applyDelta` applies the parsed operations in the fixed precedence
RENAMED → REMOVED → MODIFIED → ADDED regardless of their declaration order,
and operations of the same kind are applied in their original source order:
the fold runs over exactly the four kind-filtered sublists, concatenated in
precedence order, each preserving source order. -/
theorem applyDelta_precedence_stable (text : List Char) (ops : List DeltaOperation) :
    applyDelta text ops =
      (ops.filter (hasType .renamed) ++ ops.filter (hasType .removed) ++
        ops.filter (hasType .modified) ++ ops.filter (hasType .added)).foldl applyOp text := by
  unfold applyDelta
  rw [sortOps_eq]

/-! ## Shared lemmas about the merge scan -/

theorem isPrefixOf_self_append (p x : List Char) : p.isPrefixOf (p ++ x) = true := by
  rw [List.isPrefixOf_iff_prefix]
  exact List.prefix_append p x

theorem reqHeader_append_eq (n x : List Char) :
    reqHeader n ++ x = marker ++ ((' ' :: n) ++ x) := by
  simp [reqHeader]

theorem marker_prefix_header (n x : List Char) :
    marker.isPrefixOf (reqHeader n ++ x) = true := by
  rw [reqHeader_append_eq]
  exact isPrefixOf_self_append _ _

theorem header_append_ne_nil (n x : List Char) : reqHeader n ++ x ≠ [] := by
  simp [reqHeader, marker]

theorem modGo_nil_none (name repl before : List Char) :
    modGo name repl before none [] = [] := by
  simp [modGo]

theorem modGo_nil_some (name repl before m : List Char) :
    modGo name repl before (some m) [] = expandDollars repl m before [] := by
  simp [modGo]

theorem modGo_match (name repl before : List Char) {s : List Char}
    (h : (reqHeader name).isPrefixOf s = true) (hne : s ≠ []) :
    modGo name repl before none s =
      modGo name repl before (some (reqHeader name)) (s.drop (reqHeader name).length) := by
  cases s with
  | nil => exact absurd rfl hne
  | cons c cs => simp [modGo, h]

theorem modGo_complete (name repl before m : List Char) {s : List Char}
    (h : marker.isPrefixOf s = true) (hne : s ≠ []) :
    modGo name repl before (some m) s =
      expandDollars repl m before s ++ modGo name repl (before ++ m) none s := by
  cases s with
  | nil => exact absurd rfl hne
  | cons c cs => simp [modGo, h]

theorem modGo_scan (name repl : List Char) {s tail : List Char}
    (h : noMatchIn (reqHeader name) s tail = true) :
    ∀ before, modGo name repl before none (s ++ tail) =
      s ++ modGo name repl (before ++ s) none tail := by
  induction s with
  | nil => intro before; simp
  | cons c cs ih =>
    intro before
    simp only [noMatchIn, Bool.and_eq_true, Bool.not_eq_true'] at h
    obtain ⟨h1, h2⟩ := h
    rw [List.cons_append]
    have step : modGo name repl before none (c :: (cs ++ tail)) =
        c :: modGo name repl (before ++ [c]) none (cs ++ tail) := by
      simp [modGo, h1]
    rw [step, ih h2]
    simp

theorem modGo_skip (name repl before : List Char) {s tail : List Char}
    (h : noMatchIn marker s tail = true) :
    ∀ m, modGo name repl before (some m) (s ++ tail) =
      modGo name repl before (some (m ++ s)) tail := by
  induction s with
  | nil => intro m; simp
  | cons c cs ih =>
    intro m
    simp only [noMatchIn, Bool.and_eq_true, Bool.not_eq_true'] at h
    obtain ⟨h1, h2⟩ := h
    rw [List.cons_append]
    have step : modGo name repl before (some m) (c :: (cs ++ tail)) =
        modGo name repl before (some (m ++ [c])) (cs ++ tail) := by
      simp [modGo, h1]
    rw [step, ih h2]
    simp

theorem modGo_skipEnd (name repl before : List Char) {s : List Char}
    (h : noMatchIn marker s [] = true) (m : List Char) :
    modGo name repl before (some m) s = expandDollars repl (m ++ s) before [] := by
  have h2 := modGo_skip name repl before h m
  rw [List.append_nil] at h2
  rw [h2, modGo_nil_some]

theorem modGo_noop (name repl before : List Char) {s : List Char}
    (h : noMatchIn (reqHeader name) s [] = true) :
    modGo name repl before none s = s := by
  have h2 := modGo_scan name repl h before
  rw [List.append_nil] at h2
  rw [h2, modGo_nil_none, List.append_nil]

theorem noMatchIn_of_not_infix (pat : List Char) :
    ∀ s, ¬ (pat <:+: s) → noMatchIn pat s [] = true := by
  intro s
  induction s with
  | nil => intro _; rfl
  | cons c cs ih =>
    intro h
    rw [List.infix_cons_iff] at h
    push_neg at h
    have h1 : pat.isPrefixOf (c :: cs) = false := by
      rw [← Bool.not_eq_true, List.isPrefixOf_iff_prefix]
      exact h.1
    have h2 := ih h.2
    simp [noMatchIn, h1, h2]

theorem replaceFirstGo_noop (pat repl : List Char) :
    ∀ s before, noMatchIn pat s [] = true → replaceFirstGo pat repl before s = s := by
  intro s
  induction s with
  | nil => intro before _; rfl
  | cons c cs ih =>
    intro before h
    simp only [noMatchIn, List.append_nil, Bool.and_eq_true, Bool.not_eq_true'] at h
    simp [replaceFirstGo, h.1, ih _ h.2]

theorem expandDollars_no_dollar (repl : List Char) (h : '$' ∉ repl) :
    ∀ m b a, expandDollars repl m b a = repl := by
  induction repl with
  | nil => intro m b a; rfl
  | cons c rest ih =>
    intro m b a
    have hc : ¬ (c = '$') := fun he => h (he ▸ List.mem_cons_self c rest)
    have hrest : '$' ∉ rest := fun he => h (List.mem_cons_of_mem c he)
    rw [expandDollars.eq_def]
    simp only []
    rw [if_neg hc, ih hrest]

/-! ## C4: missing merge target is a silent no-op -/

/-- C4: a rename, removal or modification whose target heading
`### Requirement: {name}` (for a rename, the old name) does not occur in
the baseline text leaves the text unchanged.  No error is possible: the
transformation is a total function into the new text. -/
theorem applyOp_missing_target_noop (name toN c text : List Char)
    (h : ¬ ((reqHeader name) <:+: text)) :
    applyOp text (mkRenamedOp name toN) = text ∧
    applyOp text (mkRemovedOp name) = text ∧
    applyOp text (mkModifiedOp name c) = text := by
  have hnm := noMatchIn_of_not_infix (reqHeader name) text h
  refine ⟨?_, ?_, ?_⟩
  · simp only [applyOp, mkRenamedOp]
    split
    · rfl
    · exact replaceFirstGo_noop _ _ _ _ hnm
  · simp only [applyOp, mkRemovedOp]
    exact modGo_noop _ _ _ hnm
  · simp only [applyOp, mkModifiedOp]
    split
    · rfl
    · exact modGo_noop _ _ _ hnm

theorem applyOp_missing_target_noop_witness :
    applyOp (("### Requirement: Kept\nSome text").data)
        (mkRenamedOp (("Gone").data) (("New").data)) =
      ("### Requirement: Kept\nSome text").data ∧
    applyOp (("### Requirement: Kept\nSome text").data) (mkRemovedOp (("Gone").data)) =
      ("### Requirement: Kept\nSome text").data ∧
    applyOp (("### Requirement: Kept\nSome text").data)
        (mkModifiedOp (("Gone").data) (("body").data)) =
      ("### Requirement: Kept\nSome text").data :=
  applyOp_missing_target_noop (("Gone").data) (("New").data) (("body").data)
    (("### Requirement: Kept\nSome text").data) (by decide)

/-! ## C3: removal of a middle requirement -/

theorem applyDelta_single (text : List Char) (op : DeltaOperation) :
    applyDelta text [op] = applyOp text op := by
  simp [applyDelta, sortOps]

/-- C3: for a baseline consisting of the sections of requirements A, B, C
in that order (each section a heading followed by a body), a single REMOVED
operation targeting B yields exactly the sections of A and C in their
original order.  The hypotheses state that B's heading does not occur
inside A's or C's section and that B's body contains no requirement
heading marker, i.e. that the text really is three sections of three
distinct requirements. -/
theorem applyDelta_removes_middle_section (aN bN cN bodyA bodyB bodyC : List Char)
    (h1 : noMatchIn (reqHeader bN) (reqHeader aN ++ bodyA)
      ((reqHeader bN ++ bodyB) ++ (reqHeader cN ++ bodyC)) = true)
    (h2 : noMatchIn marker bodyB (reqHeader cN ++ bodyC) = true)
    (h3 : noMatchIn (reqHeader bN) (reqHeader cN ++ bodyC) [] = true) :
    applyDelta ((reqHeader aN ++ bodyA) ++ (reqHeader bN ++ bodyB) ++ (reqHeader cN ++ bodyC))
        [mkRemovedOp bN] =
      (reqHeader aN ++ bodyA) ++ (reqHeader cN ++ bodyC) := by
  rw [applyDelta_single]
  show modGo bN [] [] none _ = _
  rw [List.append_assoc]
  rw [modGo_scan bN [] h1]
  rw [List.append_assoc (reqHeader bN)]
  rw [modGo_match bN [] _ (isPrefixOf_self_append _ _) (header_append_ne_nil _ _)]
  rw [List.drop_left]
  rw [modGo_skip bN [] _ h2]
  rw [modGo_complete bN [] _ _ (marker_prefix_header _ _) (header_append_ne_nil _ _)]
  rw [modGo_noop bN [] _ h3]
  simp [expandDollars]

theorem applyDelta_removes_middle_section_witness :
    applyDelta ((reqHeader (("A").data) ++ ("\nfirst body\n\n").data) ++
          (reqHeader (("B").data) ++ ("\nsecond body\n\n").data) ++
          (reqHeader (("C").data) ++ ("\nthird body\n").data))
        [mkRemovedOp (("B").data)] =
      (reqHeader (("A").data) ++ ("\nfirst body\n\n").data) ++
        (reqHeader (("C").data) ++ ("\nthird body\n").data) :=
  applyDelta_removes_middle_section (("A").data) (("B").data) (("C").data)
    (("\nfirst body\n\n").data) (("\nsecond body\n\n").data) (("\nthird body\n").data)
    (by decide) (by decide) (by decide)

/-! ## C10: duplicated headings are all affected (the replace is global) -/

theorem modGo_two_sections (n repl pre b1 b2 : List Char)
    (hpre : noMatchIn (reqHeader n) pre ((reqHeader n ++ b1) ++ (reqHeader n ++ b2)) = true)
    (h1 : noMatchIn marker b1 (reqHeader n ++ b2) = true)
    (h2 : noMatchIn marker b2 [] = true)
    (hrepl : ∀ m b a, expandDollars repl m b a = repl) :
    modGo n repl [] none (pre ++ ((reqHeader n ++ b1) ++ (reqHeader n ++ b2))) =
      pre ++ (repl ++ repl) := by
  rw [modGo_scan n repl hpre]
  rw [List.append_assoc (reqHeader n)]
  rw [modGo_match n repl _ (isPrefixOf_self_append _ _) (header_append_ne_nil _ _)]
  rw [List.drop_left]
  rw [modGo_skip n repl _ h1]
  rw [modGo_complete n repl _ _ (marker_prefix_header _ _) (header_append_ne_nil _ _)]
  rw [modGo_match n repl _ (isPrefixOf_self_append _ _) (header_append_ne_nil _ _)]
  rw [List.drop_left]
  rw [modGo_skipEnd n repl _ h2]
  rw [hrepl, hrepl]

/-- C10: when the baseline contains two sections headed by the same
`### Requirement: {n}` heading, a single REMOVED operation deletes both
sections and a single MODIFIED operation replaces both with the
replacement content (trimmed content plus two newlines) — the regex
replace is global, not first-occurrence-only.  The replacement content is
assumed free of `$` so that no `GetSubstitution` escape fires. -/
theorem applyOp_duplicate_sections_global (n pre b1 b2 c : List Char)
    (hpre : noMatchIn (reqHeader n) pre ((reqHeader n ++ b1) ++ (reqHeader n ++ b2)) = true)
    (h1 : noMatchIn marker b1 (reqHeader n ++ b2) = true)
    (h2 : noMatchIn marker b2 [] = true)
    (hc : c.isEmpty = false)
    (hd : '$' ∉ jsTrim c) :
    applyOp (pre ++ ((reqHeader n ++ b1) ++ (reqHeader n ++ b2))) (mkRemovedOp n) = pre ∧
    applyOp (pre ++ ((reqHeader n ++ b1) ++ (reqHeader n ++ b2))) (mkModifiedOp n c) =
      pre ++ ((jsTrim c ++ ['\n', '\n']) ++ (jsTrim c ++ ['\n', '\n'])) := by
  constructor
  · show modGo n [] [] none _ = _
    rw [modGo_two_sections n [] pre b1 b2 hpre h1 h2 (fun m b a => rfl)]
    simp
  · show (if c.isEmpty then _ else modGo n (jsTrim c ++ ['\n', '\n']) [] none _) = _
    rw [hc]
    simp only [Bool.false_eq_true, if_false]
    have hnd : '$' ∉ jsTrim c ++ ['\n', '\n'] := by
      intro hm
      rcases List.mem_append.mp hm with hm1 | hm2
      · exact hd hm1
      · simp at hm2
    exact modGo_two_sections n _ pre b1 b2 hpre h1 h2 (expandDollars_no_dollar _ hnd)

theorem applyOp_duplicate_sections_global_witness :
    applyOp ((("# Title\n\n").data) ++
          ((reqHeader (("N").data) ++ ("\nalpha\n\n").data) ++
            (reqHeader (("N").data) ++ ("\nbeta\n").data)))
        (mkRemovedOp (("N").data)) = ("# Title\n\n").data ∧
    applyOp ((("# Title\n\n").data) ++
          ((reqHeader (("N").data) ++ ("\nalpha\n\n").data) ++
            (reqHeader (("N").data) ++ ("\nbeta\n").data)))
        (mkModifiedOp (("N").data) (("new text").data)) =
      ("# Title\n\n").data ++
        ((jsTrim (("new text").data) ++ ['\n', '\n']) ++
          (jsTrim (("new text").data) ++ ['\n', '\n'])) :=
  applyOp_duplicate_sections_global (("N").data) (("# Title\n\n").data)
    (("\nalpha\n\n").data) (("\nbeta\n").data) (("new text").data)
    (by decide) (by decide) (by decide) (by decide) (by decide)

/-! ## C8: the REMOVED_NO_REASON warning is section-level, not per-entry -/

theorem countCode_append (c : List Char) (l1 l2 : List VIssue) :
    countCode c (l1 ++ l2) = countCode c l1 + countCode c l2 :=
  List.countP_append _ _ _

theorem containsSub_of_prefix (pat s : List Char) (hne : pat ≠ [])
    (h : pat.isPrefixOf s = true) : containsSub pat s = true := by
  cases s with
  | nil =>
    cases pat with
    | nil => exact absurd rfl hne
    | cons a as => simp at h
  | cons c cs => simp [containsSub, h]

theorem removedSectionAux_head (e : List Char) :
    removedSectionAux (remHeadLit ++ e) = some (remHeadLit ++ takeToHH e) := by
  have h1 : remHeadLit.isPrefixOf (remHeadLit ++ e) = true := isPrefixOf_self_append _ _
  have h2 : remHeadLit ++ e = '#' :: (("# REMOVED Requirements").data ++ e) := rfl
  rw [h2] at h1
  rw [h2]
  simp only [removedSectionAux, h1, if_true]
  rw [← h2, List.drop_left]

theorem vstep_warn (d : Bool) (c : List Char)
    (hc : ((("WEAK_LANGUAGE").data : List Char) == c) = false)
    (s : VState) (p : Nat × List Char) :
    countCode c ((vstep d s p).warnings) = countCode c s.warnings := by
  unfold vstep
  rcases hreq : reqCapture p.2 with _ | name
  · rcases hscen : scenCapture p.2 with _ | name2
    · simp only []
      split
      · rfl
      · split
        · rfl
        · split
          · simp [countCode_append, countCode, weakIssue, hc]
          · rfl
    · simp only []
  · simp only []

theorem foldl_vstep_warn (d : Bool) (c : List Char)
    (hc : ((("WEAK_LANGUAGE").data : List Char) == c) = false) :
    ∀ (ps : List (Nat × List Char)) (s : VState),
      countCode c ((ps.foldl (vstep d) s).warnings) = countCode c s.warnings := by
  intro ps
  induction ps with
  | nil => intro s; rfl
  | cons p ps ih =>
    intro s
    rw [List.foldl_cons, ih, vstep_warn d c hc]

theorem validateSpec_warnings_delta (content nm : List Char) :
    (validateSpec content nm true).warnings =
      ((List.enumFrom 1 (splitLines content)).foldl (vstep true)
        { errors := [], warnings := [], requirementCount := 0, scenarioCount := 0,
          currentRequirement := none, currentScenario := none, hasWhen := false,
          hasThen := false, seenRequirements := [], seenScenarios := [] }).warnings ++
        deltaWarnings content := by
  unfold validateSpec
  simp

/-- C8 (amended): with `isDelta` set, exactly one `REMOVED_NO_REASON`
warning is emitted if and only if the REMOVED section — the text from the
`## REMOVED Requirements` heading up to the next occurrence of the
substring `## `, which already occurs at offset 1 of a following
`### Requirement:` entry heading — contains no `**Reason**` substring.
Entries are never inspected individually. -/
theorem removedNoReason_section_level (e nm : List Char) :
    countCode (("REMOVED_NO_REASON").data)
        (validateSpec (remHeadLit ++ e) nm true).warnings =
      if containsSub reasonLit (remHeadLit ++ takeToHH e) then 0 else 1 := by
  have hgate : containsSub remGateLit (remHeadLit ++ e) = true := by
    have h2 : remHeadLit ++ e = remGateLit ++ ((" Requirements").data ++ e) := rfl
    rw [h2]
    exact containsSub_of_prefix _ _ (by decide) (isPrefixOf_self_append _ _)
  have hDW : deltaWarnings (remHeadLit ++ e) =
      if containsSub reasonLit (remHeadLit ++ takeToHH e) then [] else [removedNoReasonIssue] := by
    unfold deltaWarnings
    rw [hgate, removedSectionAux_head]
    simp only [if_true]
    cases hr : containsSub reasonLit (remHeadLit ++ takeToHH e) with
    | false => simp [hr]
    | true => simp [hr]
  rw [validateSpec_warnings_delta, countCode_append,
    foldl_vstep_warn true (("REMOVED_NO_REASON").data) (by decide), hDW]
  cases hr : containsSub reasonLit (remHeadLit ++ takeToHH e) with
  | false => simp [countCode, removedNoReasonIssue]
  | true => simp [countCode]

/-- C8 (counterexample): a delta document whose REMOVED block holds two
entries, both lacking a `**Reason**` line, receives exactly one
`REMOVED_NO_REASON` warning, not one per lacking entry. -/
theorem removedNoReason_counterexample :
    entriesLackingReason
        (("## REMOVED Requirements\n### Requirement: A\n### Requirement: B\n").data) = 2 ∧
    countCode (("REMOVED_NO_REASON").data)
        (validateSpec (("## REMOVED Requirements\n### Requirement: A\n### Requirement: B\n").data)
          (("delta").data) true).warnings = 1 := by
  constructor
  · decide
  · decide

/-! ## C9: duplicate headings — one error, stats count every heading -/

theorem countCode_singleton (c : List Char) (i : VIssue) :
    countCode c [i] = if i.code == c then 1 else 0 := by
  simp [countCode, List.countP_cons]

theorem closeScenarioIssues_dup_count (s : VState) :
    countCode (("DUPLICATE_REQUIREMENT").data) (closeScenarioIssues s) = 0 := by
  unfold closeScenarioIssues
  rcases s.currentScenario with _ | sc
  · rfl
  · rw [countCode_append]
    have h1 : ∀ b : Bool, countCode (("DUPLICATE_REQUIREMENT").data)
        (if b then [missingWhenIssue sc] else []) = 0 := by
      intro b
      cases b
      · rfl
      · rw [if_pos rfl, countCode_singleton]
        simp [missingWhenIssue]
    have h2 : ∀ b : Bool, countCode (("DUPLICATE_REQUIREMENT").data)
        (if b then [missingThenIssue sc] else []) = 0 := by
      intro b
      cases b
      · rfl
      · rw [if_pos rfl, countCode_singleton]
        simp [missingThenIssue]
    rw [h1, h2]

theorem vstep_nonreq (d : Bool) (s : VState) (p : Nat × List Char)
    (h : reqCapture p.2 = none) :
    (vstep d s p).seenRequirements = s.seenRequirements ∧
    (vstep d s p).requirementCount = s.requirementCount ∧
    countCode (("DUPLICATE_REQUIREMENT").data) ((vstep d s p).errors) =
      countCode (("DUPLICATE_REQUIREMENT").data) s.errors := by
  unfold vstep
  rw [h]
  rcases hscen : scenCapture p.2 with _ | name2
  · simp only []
    split
    · refine ⟨rfl, rfl, ?_⟩
      rw [countCode_append]
      have hw : ∀ (b : Bool) (i : Nat), countCode (("DUPLICATE_REQUIREMENT").data)
          (if b then [orphanWhenIssue i] else []) = 0 := by
        intro b i
        cases b
        · rfl
        · rw [if_pos rfl, countCode_singleton]
          simp [orphanWhenIssue]
      rw [hw]
      omega
    · split
      · refine ⟨rfl, rfl, ?_⟩
        rw [countCode_append]
        have hw : ∀ (b : Bool) (i : Nat), countCode (("DUPLICATE_REQUIREMENT").data)
            (if b then [orphanThenIssue i] else []) = 0 := by
          intro b i
          cases b
          · rfl
          · rw [if_pos rfl, countCode_singleton]
            simp [orphanThenIssue]
        rw [hw]
        omega
      · split
        · exact ⟨rfl, rfl, rfl⟩
        · exact ⟨rfl, rfl, rfl⟩
  · simp only []
    refine ⟨by trivial, by trivial, ?_⟩
    rw [countCode_append, countCode_append, countCode_append,
      closeScenarioIssues_dup_count]
    have h2 : ∀ b : Bool, countCode (("DUPLICATE_REQUIREMENT").data)
        (if b then [orphanScenIssue name2 p.1] else []) = 0 := by
      intro b
      cases b
      · rfl
      · rw [if_pos rfl, countCode_singleton]
        simp [orphanScenIssue]
    have h3 : ∀ b : Bool, countCode (("DUPLICATE_REQUIREMENT").data)
        (if b then [dupScenIssue name2 s.currentRequirement p.1] else []) = 0 := by
      intro b
      cases b
      · rfl
      · rw [if_pos rfl, countCode_singleton]
        simp [dupScenIssue]
    rw [h2, h3]
    omega

theorem vstep_req (d : Bool) (s : VState) (p : Nat × List Char) (name : List Char)
    (h : reqCapture p.2 = some name) :
    (vstep d s p).seenRequirements = s.seenRequirements ++ [name] ∧
    (vstep d s p).requirementCount = s.requirementCount + 1 ∧
    countCode (("DUPLICATE_REQUIREMENT").data) ((vstep d s p).errors) =
      countCode (("DUPLICATE_REQUIREMENT").data) s.errors +
        (if s.seenRequirements.contains name then 1 else 0) := by
  unfold vstep
  rw [h]
  simp only []
  refine ⟨by trivial, by trivial, ?_⟩
  rw [countCode_append, countCode_append, closeScenarioIssues_dup_count]
  have h2 : countCode (("DUPLICATE_REQUIREMENT").data)
      (if s.seenRequirements.contains name then [dupReqIssue name p.1] else []) =
      if s.seenRequirements.contains name then 1 else 0 := by
    cases hb : s.seenRequirements.contains name
    · rfl
    · rw [if_pos rfl, if_pos rfl, countCode_singleton]
      simp [dupReqIssue]
  rw [h2]
  omega

theorem foldl_vstep_nonreq (d : Bool) :
    ∀ (i : Nat) (ls : List (List Char)) (s : VState),
      (∀ l ∈ ls, reqCapture l = none) →
      ((ls.enumFrom i).foldl (vstep d) s).seenRequirements = s.seenRequirements ∧
      ((ls.enumFrom i).foldl (vstep d) s).requirementCount = s.requirementCount ∧
      countCode (("DUPLICATE_REQUIREMENT").data)
          (((ls.enumFrom i).foldl (vstep d) s).errors) =
        countCode (("DUPLICATE_REQUIREMENT").data) s.errors := by
  intro i ls
  induction ls generalizing i with
  | nil => intro s _; exact ⟨rfl, rfl, rfl⟩
  | cons l ls ih =>
    intro s hl
    rw [List.enumFrom_cons, List.foldl_cons]
    have hstep := vstep_nonreq d s (i, l) (hl l (List.mem_cons_self l ls))
    have hrest := ih (i + 1) (vstep d s (i, l))
      (fun l2 h2 => hl l2 (List.mem_cons_of_mem l h2))
    exact ⟨hrest.1.trans hstep.1, hrest.2.1.trans (by rw [hstep.2.1]),
      hrest.2.2.trans hstep.2.2⟩

theorem enumFrom_append (i : Nat) (a b : List (List Char)) :
    (a ++ b).enumFrom i = a.enumFrom i ++ b.enumFrom (i + a.length) := by
  induction a generalizing i with
  | nil => simp
  | cons x xs ih =>
    rw [List.cons_append, List.enumFrom_cons, List.enumFrom_cons, ih (i + 1),
      List.cons_append, List.length_cons]
    have : i + 1 + xs.length = i + (xs.length + 1) := by omega
    rw [this]


theorem splitLines_ne_nil (s : List Char) : splitLines s ≠ [] := by
  cases s with
  | nil => simp [splitLines]
  | cons c cs =>
    unfold splitLines
    split
    · simp
    · rcases h : splitLines cs with _ | ⟨l, ls⟩ <;> simp

theorem splitLines_no_newline (l : List Char) (h : ('\n') ∉ l) : splitLines l = [l] := by
  induction l with
  | nil => rfl
  | cons c cs ih =>
    have hc : ¬ (c = '\n') := fun he => h (he ▸ List.mem_cons_self c cs)
    have hcs : ('\n') ∉ cs := fun he => h (List.mem_cons_of_mem c he)
    unfold splitLines
    rw [if_neg hc, ih hcs]

theorem splitLines_append_line (l : List Char) (h : ('\n') ∉ l) (b : List Char) :
    splitLines (l ++ '\n' :: b) = l :: splitLines b := by
  induction l with
  | nil =>
    simp [splitLines]
  | cons c cs ih =>
    have hc : ¬ (c = '\n') := fun he => h (he ▸ List.mem_cons_self c cs)
    have hcs : ('\n') ∉ cs := fun he => h (List.mem_cons_of_mem c he)
    rw [List.cons_append]
    simp only [splitLines, if_neg hc]
    rw [ih hcs]

theorem splitLines_joinLines :
    ∀ ls : List (List Char), ls ≠ [] → (∀ l ∈ ls, ('\n') ∉ l) →
      splitLines (joinLines ls) = ls := by
  intro ls
  induction ls with
  | nil => intro h _; exact absurd rfl h
  | cons l ls ih =>
    intro _ hnl
    cases ls with
    | nil =>
      show splitLines (joinLines [l]) = [l]
      rw [joinLines, splitLines_no_newline l (hnl l (List.mem_cons_self l []))]
    | cons l2 rest =>
      show splitLines (l ++ '\n' :: joinLines (l2 :: rest)) = l :: l2 :: rest
      rw [splitLines_append_line l (hnl l (List.mem_cons_self _ _))]
      rw [ih (by simp) (fun x hx => hnl x (List.mem_cons_of_mem l hx))]

theorem headCapture_self (lit n : List Char) (h : validName n = true) :
    headCapture lit (lit ++ n) = some n := by
  simp only [validName, Bool.and_eq_true, Bool.not_eq_true'] at h
  simp [headCapture, isPrefixOf_self_append, List.drop_left, h.1, h.2]

theorem validateSpec_decompose (content nm : List Char) (d : Bool) :
    (validateSpec content nm d).errors =
      ((List.enumFrom 1 (splitLines content)).foldl (vstep d) (initVState content d)).errors ++
        closeScenarioIssues
          ((List.enumFrom 1 (splitLines content)).foldl (vstep d) (initVState content d)) ∧
    (validateSpec content nm d).reqStat =
      ((List.enumFrom 1 (splitLines content)).foldl (vstep d)
        (initVState content d)).requirementCount := by
  unfold validateSpec initVState
  exact ⟨rfl, rfl⟩

theorem initVState_props (content : List Char) (d : Bool) :
    countCode (("DUPLICATE_REQUIREMENT").data) (initVState content d).errors = 0 ∧
    (initVState content d).seenRequirements = [] ∧
    (initVState content d).requirementCount = 0 := by
  unfold initVState
  refine ⟨?_, rfl, rfl⟩
  split
  · rw [countCode_singleton]
    simp [missingTitleIssue]
  · rfl

theorem foldl_vstep_nonreq2 (d : Bool) :
    ∀ (ps : List (Nat × List Char)) (s : VState),
      (∀ p ∈ ps, reqCapture p.2 = none) →
      (ps.foldl (vstep d) s).seenRequirements = s.seenRequirements ∧
      (ps.foldl (vstep d) s).requirementCount = s.requirementCount ∧
      countCode (("DUPLICATE_REQUIREMENT").data) ((ps.foldl (vstep d) s).errors) =
        countCode (("DUPLICATE_REQUIREMENT").data) s.errors := by
  intro ps
  induction ps with
  | nil => intro s _; exact ⟨rfl, rfl, rfl⟩
  | cons p ps ih =>
    intro s hl
    rw [List.foldl_cons]
    have hstep := vstep_nonreq d s p (hl p (List.mem_cons_self p ps))
    have hrest := ih (vstep d s p) (fun p2 h2 => hl p2 (List.mem_cons_of_mem p h2))
    exact ⟨hrest.1.trans hstep.1, hrest.2.1.trans (by rw [hstep.2.1]),
      hrest.2.2.trans hstep.2.2⟩

theorem enumFrom_all_nonreq (i : Nat) (ls : List (List Char))
    (h : ∀ l ∈ ls, reqCapture l = none) :
    ∀ p ∈ List.enumFrom i ls, reqCapture p.2 = none := by
  intro p hp
  apply h
  have := List.mem_map_of_mem Prod.snd hp
  rwa [List.enumFrom_map_snd] at this


theorem enumFrom_five (i : Nat) (a b c : List (List Char)) (x y : List Char) :
    List.enumFrom i (a ++ [x] ++ b ++ [y] ++ c) =
      List.enumFrom i a ++ [(i + a.length, x)] ++
        List.enumFrom (i + a.length + 1) b ++
        [(i + a.length + 1 + b.length, y)] ++
        List.enumFrom (i + a.length + 1 + b.length + 1) c := by
  rw [enumFrom_append, enumFrom_append, enumFrom_append, enumFrom_append]
  simp [List.length_append, Nat.add_assoc, Nat.add_comm, Nat.add_left_comm]

theorem fold_two_req (d : Bool) (ps1 ps2 ps3 : List (Nat × List Char)) (j1 j2 : Nat)
    (s0 : VState) (L : List (Nat × List Char))
    (hL : L = ps1 ++ [(j1, reqLit ++ ("Login").data)] ++ ps2 ++
      [(j2, reqLit ++ ("Login").data)] ++ ps3)
    (h1 : ∀ p ∈ ps1, reqCapture p.2 = none)
    (h2 : ∀ p ∈ ps2, reqCapture p.2 = none)
    (h3 : ∀ p ∈ ps3, reqCapture p.2 = none)
    (hs0 : countCode (("DUPLICATE_REQUIREMENT").data) s0.errors = 0 ∧
      s0.seenRequirements = [] ∧ s0.requirementCount = 0) :
    countCode (("DUPLICATE_REQUIREMENT").data) ((List.foldl (vstep d) s0 L).errors) = 1 ∧
    (List.foldl (vstep d) s0 L).requirementCount = 2 := by
  subst hL
  have hcap : reqCapture (reqLit ++ ("Login").data) = some (("Login").data) :=
    headCapture_self _ _ (by decide)
  rw [List.foldl_append, List.foldl_append, List.foldl_append, List.foldl_append]
  set sA := List.foldl (vstep d) s0 ps1 with hsA
  have hA := foldl_vstep_nonreq2 d ps1 s0 h1
  rw [← hsA] at hA
  have hfold1 : ∀ (j : Nat) (s : VState),
      List.foldl (vstep d) s [(j, reqLit ++ ("Login").data)] =
        vstep d s (j, reqLit ++ ("Login").data) := fun j s => rfl
  rw [hfold1]
  set sB := vstep d sA (j1, reqLit ++ ("Login").data) with hsB
  have hB := vstep_req d sA (j1, reqLit ++ ("Login").data) (("Login").data) hcap
  rw [← hsB] at hB
  set sC := List.foldl (vstep d) sB ps2 with hsC
  have hC := foldl_vstep_nonreq2 d ps2 sB h2
  rw [← hsC] at hC
  rw [hfold1]
  set sD := vstep d sC (j2, reqLit ++ ("Login").data) with hsD
  have hD := vstep_req d sC (j2, reqLit ++ ("Login").data) (("Login").data) hcap
  rw [← hsD] at hD
  have hE := foldl_vstep_nonreq2 d ps3 sD h3
  have hseenA : sA.seenRequirements = [] := hA.1.trans hs0.2.1
  have hdupA : countCode (("DUPLICATE_REQUIREMENT").data) sA.errors = 0 :=
    hA.2.2.trans hs0.1
  have hrcA : sA.requirementCount = 0 := hA.2.1.trans hs0.2.2
  have hseenB : sB.seenRequirements = [("Login").data] := by
    rw [hB.1, hseenA]
    rfl
  have hdupB : countCode (("DUPLICATE_REQUIREMENT").data) sB.errors = 0 := by
    rw [hB.2.2, hdupA, hseenA]
    rfl
  have hrcB : sB.requirementCount = 1 := by
    rw [hB.2.1, hrcA]
  have hseenC : sC.seenRequirements = [("Login").data] := hC.1.trans hseenB
  have hdupC : countCode (("DUPLICATE_REQUIREMENT").data) sC.errors = 0 :=
    hC.2.2.trans hdupB
  have hrcC : sC.requirementCount = 1 := hC.2.1.trans hrcB
  have hdupD : countCode (("DUPLICATE_REQUIREMENT").data) sD.errors = 1 := by
    rw [hD.2.2, hdupC, hseenC]
    decide
  have hrcD : sD.requirementCount = 2 := by
    rw [hD.2.1, hrcC]
  exact ⟨hE.2.2.trans hdupD, hE.2.1.trans hrcD⟩

/-- C9: a document whose lines contain exactly two `### Requirement: Login`
headings (no other line matching the requirement-heading regex) yields
exactly one `DUPLICATE_REQUIREMENT` error, while `stats.requirements`
reports 2 — the counter increments at every heading match, independent of
validity. -/
theorem validateSpec_double_heading (pre mid post : List (List Char)) (nm : List Char)
    (d : Bool)
    (hpre : ∀ l ∈ pre, reqCapture l = none)
    (hmid : ∀ l ∈ mid, reqCapture l = none)
    (hpost : ∀ l ∈ post, reqCapture l = none)
    (hnp : ∀ l ∈ pre, ('\n') ∉ l) (hnm : ∀ l ∈ mid, ('\n') ∉ l)
    (hnpo : ∀ l ∈ post, ('\n') ∉ l) :
    countCode (("DUPLICATE_REQUIREMENT").data)
        (validateSpec (joinLines (pre ++ [reqLit ++ ("Login").data] ++ mid ++
          [reqLit ++ ("Login").data] ++ post)) nm d).errors = 1 ∧
    (validateSpec (joinLines (pre ++ [reqLit ++ ("Login").data] ++ mid ++
      [reqLit ++ ("Login").data] ++ post)) nm d).reqStat = 2 := by
  have hrlnn : ('\n') ∉ reqLit ++ ("Login").data := by decide
  have hall : ∀ l ∈ pre ++ [reqLit ++ ("Login").data] ++ mid ++
      [reqLit ++ ("Login").data] ++ post, ('\n') ∉ l := by
    intro l hm
    simp only [List.mem_append, List.mem_singleton] at hm
    rcases hm with ((((h | h) | h) | h) | h)
    · exact hnp l h
    · exact h ▸ hrlnn
    · exact hnm l h
    · exact h ▸ hrlnn
    · exact hnpo l h
  have hne : pre ++ [reqLit ++ ("Login").data] ++ mid ++
      [reqLit ++ ("Login").data] ++ post ≠ [] := by
    simp
  have hsplit := splitLines_joinLines _ hne hall
  obtain ⟨he, hr⟩ := validateSpec_decompose
    (joinLines (pre ++ [reqLit ++ ("Login").data] ++ mid ++
      [reqLit ++ ("Login").data] ++ post)) nm d
  rw [he, hr, hsplit]
  have hmain := fold_two_req d (List.enumFrom 1 pre)
    (List.enumFrom (1 + pre.length + 1) mid)
    (List.enumFrom (1 + pre.length + 1 + mid.length + 1) post)
    (1 + pre.length) (1 + pre.length + 1 + mid.length)
    (initVState (joinLines (pre ++ [reqLit ++ ("Login").data] ++ mid ++
      [reqLit ++ ("Login").data] ++ post)) d)
    (List.enumFrom 1 (pre ++ [reqLit ++ ("Login").data] ++ mid ++
      [reqLit ++ ("Login").data] ++ post))
    (enumFrom_five 1 pre mid post _ _)
    (enumFrom_all_nonreq 1 pre hpre)
    (enumFrom_all_nonreq _ mid hmid)
    (enumFrom_all_nonreq _ post hpost)
    (initVState_props _ _)
  rw [countCode_append, closeScenarioIssues_dup_count, hmain.1, hmain.2]
  exact ⟨rfl, rfl⟩

theorem validateSpec_double_heading_witness :
    countCode (("DUPLICATE_REQUIREMENT").data)
        (validateSpec (joinLines ([("# T").data] ++ [reqLit ++ ("Login").data] ++ [] ++
          [reqLit ++ ("Login").data] ++ [])) (("test").data) false).errors = 1 ∧
    (validateSpec (joinLines ([("# T").data] ++ [reqLit ++ ("Login").data] ++ [] ++
      [reqLit ++ ("Login").data] ++ [])) (("test").data) false).reqStat = 2 :=
  validateSpec_double_heading [("# T").data] [] [] (("test").data) false
    (by decide) (by decide) (by decide) (by decide) (by decide) (by decide)

/-! ## C7: CROSS_SPEC_DUPLICATE fires on any repeated extraction -/

theorem crossStepName_foldl (names : List (List Char)) :
    ∀ (nm : List Char) (acc : List (List Char × List Char) × List VIssue),
      names.foldl (crossStepName nm) acc =
        (names.map (fun r => (nm, r))).foldl crossPairStep acc := by
  induction names with
  | nil => intro nm acc; rfl
  | cons r rest ih =>
    intro nm acc
    rw [List.map_cons, List.foldl_cons, List.foldl_cons, ih]
    rfl

theorem validateSpecSet_foldl (specs : List (List Char × List Char)) :
    ∀ acc, specs.foldl
        (fun acc p => (extractReqNames p.2).foldl (crossStepName p.1) acc) acc =
      (pairsOf specs).foldl crossPairStep acc := by
  induction specs with
  | nil => intro acc; rfl
  | cons p rest ih =>
    intro acc
    rw [List.foldl_cons, ih]
    show _ = ((((p :: rest).map (fun p => (extractReqNames p.2).map (fun r => (p.1, r)))).flatten).foldl crossPairStep acc)
    rw [List.map_cons, List.flatten_cons, List.foldl_append, crossStepName_foldl]
    rfl

theorem getAssoc_setAssoc (m : List (List Char × List Char)) (k v k2 : List Char) :
    getAssoc (setAssoc m k v) k2 = if k2 = k then some v else getAssoc m k2 := by
  induction m with
  | nil =>
    show (if k = k2 then some v else none) = if k2 = k then some v else none
    by_cases h : k2 = k
    · rw [if_pos h, if_pos h.symm]
    · rw [if_neg h, if_neg (fun hh : k = k2 => h hh.symm)]
  | cons kv rest ih =>
    obtain ⟨k0, v0⟩ := kv
    by_cases h0 : k0 = k
    · subst h0
      rw [show setAssoc ((k0, v0) :: rest) k0 v = (k0, v) :: rest from by simp [setAssoc]]
      show (if k0 = k2 then some v else getAssoc rest k2) =
        if k2 = k0 then some v
        else (if k0 = k2 then some v0 else getAssoc rest k2)
      by_cases h2 : k0 = k2
      · rw [if_pos h2, if_pos h2.symm]
      · rw [if_neg h2, if_neg h2, if_neg (fun hh : k2 = k0 => h2 hh.symm)]
    · rw [show setAssoc ((k0, v0) :: rest) k v = (k0, v0) :: setAssoc rest k v from by
        simp [setAssoc, h0]]
      show (if k0 = k2 then some v0 else getAssoc (setAssoc rest k v) k2) =
        if k2 = k then some v
        else (if k0 = k2 then some v0 else getAssoc rest k2)
      by_cases h2 : k0 = k2
      · subst h2
        rw [if_pos rfl, if_pos rfl, if_neg (fun hh : k0 = k => h0 hh)]
      · rw [if_neg h2, if_neg h2, ih]

theorem crossPair_invariant :
    ∀ (pairs : List (List Char × List Char)) (m : List (List Char × List Char))
      (issues : List VIssue),
      ((pairs.foldl crossPairStep (m, issues)).2 = [] ↔
        issues = [] ∧ (pairs.map Prod.snd).Nodup ∧
          ∀ r ∈ pairs.map Prod.snd, getAssoc m r = none) := by
  intro pairs
  induction pairs with
  | nil => intro m issues; simp
  | cons p rest ih =>
    intro m issues
    obtain ⟨nm, r⟩ := p
    rw [List.foldl_cons]
    cases hget : getAssoc m r with
    | some o =>
      have hstep : crossPairStep (m, issues) (nm, r) =
          (setAssoc m r nm, issues ++ [crossIssue r o nm]) := by
        simp [crossPairStep, crossStepName, hget]
      rw [hstep, ih]
      constructor
      · rintro ⟨h1, _, _⟩
        exact absurd h1 (by simp)
      · rintro ⟨h1, h2, h3⟩
        have hr := h3 r (by simp)
        rw [hget] at hr
        exact absurd hr (by simp)
    | none =>
      have hstep : crossPairStep (m, issues) (nm, r) = (setAssoc m r nm, issues) := by
        simp [crossPairStep, crossStepName, hget]
      rw [hstep, ih]
      simp only [List.map_cons, List.nodup_cons, List.mem_cons]
      constructor
      · rintro ⟨h1, h2, h3⟩
        have hnotin : r ∉ rest.map Prod.snd := by
          intro hr
          have hh := h3 r hr
          rw [getAssoc_setAssoc] at hh
          simp at hh
        refine ⟨h1, ⟨hnotin, h2⟩, ?_⟩
        intro r2 hr2
        rcases hr2 with hr2 | hr2
        · exact hr2 ▸ hget
        · have hh := h3 r2 hr2
          rw [getAssoc_setAssoc] at hh
          by_cases he : r2 = r
          · exact he ▸ hget
          · rwa [if_neg he] at hh
      · rintro ⟨h1, ⟨hnotin, h2⟩, h3⟩
        refine ⟨h1, h2, ?_⟩
        intro r2 hr2
        rw [getAssoc_setAssoc]
        by_cases he : r2 = r
        · exact absurd (he ▸ hr2) hnotin
        · rw [if_neg he]
          exact h3 r2 (Or.inr hr2)

theorem pairsOf_map_snd (specs : List (List Char × List Char)) :
    (pairsOf specs).map Prod.snd = (specs.map (fun p => extractReqNames p.2)).flatten := by
  unfold pairsOf
  rw [List.map_flatten]
  congr 1
  rw [List.map_map]
  apply List.map_congr_left
  intro p _
  simp [List.map_map]

/-- C7 (amended): `validateSpecSet` emits no issue exactly when the
multiset of `### Requirement:` names extracted across all documents — in
document order, counting repeats inside a single document — has no
duplicate.  In the spec's positive example, two documents each declaring
`### Requirement: User Login` yield exactly one `CROSS_SPEC_DUPLICATE`
issue naming both documents, and documents with disjoint names yield
none. -/
theorem validateSpecSet_characterization :
    (∀ specs : List (List Char × List Char),
      (validateSpecSet specs).issues = [] ↔
        ((specs.map (fun p => extractReqNames p.2)).flatten).Nodup) ∧
    (validateSpecSet
        [((("auth").data), ("# Auth\n## Requirements\n### Requirement: User Login\n").data),
         ((("security").data),
           ("# Security\n## Requirements\n### Requirement: User Login\n").data)]).issues =
      [crossIssue (("User Login").data) (("auth").data) (("security").data)] ∧
    (validateSpecSet
        [((("auth").data), ("# Auth\n## Requirements\n### Requirement: User Login\n").data),
         ((("security").data),
           ("# Security\n## Requirements\n### Requirement: Access Control\n").data)]).issues =
      [] := by
  refine ⟨?_, by decide, by decide⟩
  intro specs
  show (specs.foldl
      (fun acc p => (extractReqNames p.2).foldl (crossStepName p.1) acc) ([], [])).2 = [] ↔ _
  rw [validateSpecSet_foldl, crossPair_invariant, pairsOf_map_snd]
  simp [getAssoc]

/-- C7 (counterexample): a single document that declares the same
requirement name twice already triggers a `CROSS_SPEC_DUPLICATE` issue —
naming that one document on both sides — although no requirement name
appears under more than one document name. -/
theorem validateSpecSet_counterexample :
    (validateSpecSet
        [((("auth").data), ("### Requirement: X\n### Requirement: X").data)]).issues =
      [crossIssue (("X").data) (("auth").data) (("auth").data)] ∧
    someNameInTwoDocs
      [((("auth").data), ("### Requirement: X\n### Requirement: X").data)] = false := by
  constructor
  · decide
  · decide

/-! ## The parser and its projection -/

theorem sProj_pstep (s : PState) (line : List Char) :
    sProj (pstep s line) = projStep (sProj s) line := by
  obtain ⟨ti, reqs, cr, cs, indesc, dl⟩ := s
  rcases h1 : titleCapture line with _ | cap
  · by_cases hp : sectionHeadingTest purposeLit line = true
    · simp [pstep, projStep, sProj, h1, hp]
    · by_cases hq : sectionHeadingTest requirementsLit line = true
      · simp [pstep, projStep, sProj, h1, hp, hq]
      · rcases h2 : reqCapture line with _ | rn
        · rcases h3 : scenCapture line with _ | sn
          · rcases cs with _ | sc
            · cases hb : (indesc && !(jsTrim line).isEmpty) <;>
                rcases hw : clauseCapture whenKw line with _ | cw <;>
                rcases ht2 : clauseCapture thenKw line with _ | ct <;>
                rcases ha : clauseCapture andKw line with _ | ca <;>
                simp [pstep, projStep, sProj, h1, hp, hq, h2, h3, hw, ht2, ha, hb]
            · rcases hw : clauseCapture whenKw line with _ | cw
              · rcases ht2 : clauseCapture thenKw line with _ | ct
                · rcases ha : clauseCapture andKw line with _ | ca
                  · cases hb : (indesc && !(jsTrim line).isEmpty) <;>
                      simp [pstep, projStep, sProj, h1, hp, hq, h2, h3, hw, ht2, ha, hb]
                  · simp [pstep, projStep, sProj, h1, hp, hq, h2, h3, hw, ht2, ha]
                · simp [pstep, projStep, sProj, h1, hp, hq, h2, h3, hw, ht2]
              · simp [pstep, projStep, sProj, h1, hp, hq, h2, h3, hw]
          · rcases cr with _ | r <;> rcases cs with _ | sc <;> cases indesc <;>
              simp [pstep, projStep, sProj, reqProj, h1, hp, hq, h2, h3]
        · rcases cr with _ | r <;> rcases cs with _ | sc <;>
            simp [pstep, projStep, sProj, closeReq, reqFlushList, optList, reqProj,
              h1, hp, hq, h2]
  · simp [pstep, projStep, sProj, h1]

theorem sProj_foldl (ls : List (List Char)) :
    ∀ s : PState, sProj (ls.foldl pstep s) = ls.foldl projStep (sProj s) := by
  induction ls with
  | nil => intro s; rfl
  | cons l rest ih =>
    intro s
    rw [List.foldl_cons, List.foldl_cons, ih, sProj_pstep]

theorem finishParse_title (s : PState) : (finishParse s).title = s.title := rfl

theorem finishParse_req_proj (s : PState) :
    (finishParse s).requirements.map reqProj = projFinish (sProj s) := by
  obtain ⟨ti, reqs, cr, cs, indesc, dl⟩ := s
  rcases cr with _ | r <;> rcases cs with _ | sc <;> cases indesc <;>
    simp [finishParse, projFinish, sProj, reqFlushList, optList, reqProj]

/-! ## C6: the title comes from the last title heading -/

theorem projStep_title (p : ProjState) (line : List Char) :
    (projStep p line).title =
      match titleCapture line with
      | some cap => jsTrim (stripSpecSuffix cap)
      | none => p.title := by
  rcases h1 : titleCapture line with _ | cap
  · unfold projStep
    rw [h1]
    simp only []
    split
    · rfl
    · split
      · rfl
      · rcases h2 : reqCapture line with _ | rn
        · rcases h3 : scenCapture line with _ | sn
          · rcases hw : clauseCapture whenKw line with _ | cw <;>
            rcases ht2 : clauseCapture thenKw line with _ | ct <;>
            rcases ha : clauseCapture andKw line with _ | ca <;>
            rcases hcs : p.curScen with _ | sc <;>
              simp [h2, h3, hw, ht2, ha, hcs]
          · simp [h2, h3]
        · simp [h2]
  · simp [projStep, h1]

theorem foldl_projStep_title (ls : List (List Char)) :
    ∀ p : ProjState, (ls.foldl projStep p).title =
      ((ls.filterMap titleCapture).map (fun cap => jsTrim (stripSpecSuffix cap))).getLastD
        p.title := by
  induction ls with
  | nil => intro p; rfl
  | cons l rest ih =>
    intro p
    rw [List.foldl_cons, ih]
    rcases h : titleCapture l with _ | cap
    · rw [List.filterMap_cons_none h]
      have ht := projStep_title p l
      rw [h] at ht
      rw [ht]
    · rw [List.filterMap_cons_some h, List.map_cons, List.getLastD_cons]
      have ht := projStep_title p l
      rw [h] at ht
      rw [ht]

/-- C6 (amended): the parsed title comes from the LAST `# ` heading of the
body — every matching line overwrites the previous assignment — with the
trailing `Specification` suffix stripped case-insensitively and the result
trimmed; it is empty when no line matches. -/
theorem parseSpec_title_last_heading (body : List Char) :
    (parseSpec body).title =
      (((splitLines body).filterMap titleCapture).map
        (fun cap => jsTrim (stripSpecSuffix cap))).getLastD [] := by
  unfold parseSpec
  rw [finishParse_title]
  have h1 : ((splitLines body).foldl pstep initPState).title =
      (sProj ((splitLines body).foldl pstep initPState)).title := rfl
  rw [h1, sProj_foldl, foldl_projStep_title]
  rfl

/-- C6 (counterexample): with two title headings the parser keeps the
second, not the first. -/
theorem parseSpec_title_counterexample :
    (parseSpec (("# One\n# Two").data)).title = ("Two").data ∧
    (parseSpec (("# One\n# Two").data)).title ≠ ("One").data := by
  constructor
  · decide
  · decide

/-! ## Line-recognizer lemmas -/

theorem isPrefixOf_append_false_le :
    ∀ (p l x : List Char), p.length ≤ l.length → p.isPrefixOf l = false →
      p.isPrefixOf (l ++ x) = false := by
  intro p
  induction p with
  | nil => intro l x _ h2; simp at h2
  | cons a as ih =>
    intro l x h1 h2
    cases l with
    | nil => simp at h1
    | cons b bs =>
      rw [List.cons_append]
      rw [List.isPrefixOf_cons₂] at h2 ⊢
      cases hab : a == b
      · simp [hab]
      · rw [hab] at h2
        simp only [Bool.true_and] at h2 ⊢
        exact ih bs x (by simpa using h1) h2

theorem isPrefixOf_append_false_rev :
    ∀ (l p x : List Char), l.length ≤ p.length → l.isPrefixOf p = false →
      p.isPrefixOf (l ++ x) = false := by
  intro l
  induction l with
  | nil => intro p x _ h2; simp at h2
  | cons b bs ih =>
    intro p x h1 h2
    cases p with
    | nil => simp at h1
    | cons a as =>
      rw [List.cons_append]
      rw [List.isPrefixOf_cons₂] at h2 ⊢
      cases hab : a == b
      · simp [hab]
      · have hba : (b == a) = true := by
          rw [beq_iff_eq] at hab ⊢
          exact hab.symm
        rw [hba] at h2
        simp only [Bool.true_and] at h2 ⊢
        exact ih as x (by simpa using h1) h2

theorem headCapture_mismatch (lit1 lit2 n : List Char)
    (h : lit1.isPrefixOf (lit2 ++ n) = false) : headCapture lit1 (lit2 ++ n) = none := by
  simp [headCapture, h]

theorem sectionHeadingTest_mismatch (lit1 lit2 n : List Char)
    (h : lit1.isPrefixOf (lit2 ++ n) = false) :
    sectionHeadingTest lit1 (lit2 ++ n) = false := by
  simp [sectionHeadingTest, h]

theorem recog_req_line (n : List Char) (h : validName n = true) :
    titleCapture (reqLit ++ n) = none ∧
    sectionHeadingTest purposeLit (reqLit ++ n) = false ∧
    sectionHeadingTest requirementsLit (reqLit ++ n) = false ∧
    reqCapture (reqLit ++ n) = some n := by
  refine ⟨?_, ?_, ?_, headCapture_self _ _ h⟩
  · exact headCapture_mismatch _ _ _
      (isPrefixOf_append_false_le _ _ _ (by decide) (by decide))
  · exact sectionHeadingTest_mismatch _ _ _
      (isPrefixOf_append_false_le _ _ _ (by decide) (by decide))
  · exact sectionHeadingTest_mismatch _ _ _
      (isPrefixOf_append_false_le _ _ _ (by decide) (by decide))

theorem recog_scen_line (n : List Char) (h : validName n = true) :
    titleCapture (scenLit ++ n) = none ∧
    sectionHeadingTest purposeLit (scenLit ++ n) = false ∧
    sectionHeadingTest requirementsLit (scenLit ++ n) = false ∧
    reqCapture (scenLit ++ n) = none ∧
    scenCapture (scenLit ++ n) = some n := by
  refine ⟨?_, ?_, ?_, ?_, headCapture_self _ _ h⟩
  · exact headCapture_mismatch _ _ _
      (isPrefixOf_append_false_le _ _ _ (by decide) (by decide))
  · exact sectionHeadingTest_mismatch _ _ _
      (isPrefixOf_append_false_le _ _ _ (by decide) (by decide))
  · exact sectionHeadingTest_mismatch _ _ _
      (isPrefixOf_append_false_le _ _ _ (by decide) (by decide))
  · exact headCapture_mismatch _ _ _
      (isPrefixOf_append_false_rev _ _ _ (by decide) (by decide))

theorem dropWhile_cons_false {p : Char → Bool} {c : Char} (h : p c = false)
    (l : List Char) : (c :: l).dropWhile p = c :: l := by
  simp [List.dropWhile_cons, h]

theorem clauseCapture_self (k0 : Char) (kt c : List Char)
    (hk0 : jsWs k0 = false) (hc : validClause c = true) :
    clauseCapture (k0 :: kt) (('-') :: (' ') :: ((k0 :: kt) ++ (' ' :: c))) = some c := by
  cases c with
  | nil => simp [validClause] at hc
  | cons ch ct =>
    simp only [validClause, Bool.and_eq_true, Bool.not_eq_true'] at hc
    unfold clauseCapture
    rw [dropWhile_cons_false (by decide)]
    simp only [if_true]
    have hd1 : ((' ') :: ((k0 :: kt) ++ (' ' :: (ch :: ct)))).dropWhile jsWs =
        (k0 :: kt) ++ (' ' :: (ch :: ct)) := by
      rw [List.dropWhile_cons]
      simp only [show jsWs (' ') = true from by decide, if_true, List.cons_append]
      exact dropWhile_cons_false hk0 _
    rw [hd1]
    rw [isPrefixOf_self_append]
    simp only [if_true, List.drop_left]
    have hemp : ((' ') :: (ch :: ct)).isEmpty = false := rfl
    rw [hemp]
    simp only [Bool.false_eq_true, if_false]
    have htk : ((' ') :: (ch :: ct)).takeWhile jsWs = [' '] := by
      rw [List.takeWhile_cons]
      simp only [show jsWs (' ') = true from by decide, if_true]
      rw [List.takeWhile_cons]
      rw [hc.1]
      simp
    rw [htk]
    have hmin : min ([' '].length) (((' ') :: (ch :: ct)).length - 1) = 1 := by
      simp only [List.length_cons, List.length_nil, List.length]
      omega
    rw [hmin]
    simp only [List.drop_succ_cons, List.drop_zero]
    rw [hc.2]
    simp

theorem clauseCapture_other (kw : List Char) (k0 : Char) (kt c : List Char)
    (hk0 : jsWs k0 = false)
    (hne : kw.isPrefixOf ((k0 :: kt) ++ (' ' :: c)) = false) :
    clauseCapture kw (('-') :: (' ') :: ((k0 :: kt) ++ (' ' :: c))) = none := by
  unfold clauseCapture
  rw [dropWhile_cons_false (by decide)]
  simp only [if_true]
  have hd1 : ((' ') :: ((k0 :: kt) ++ (' ' :: c))).dropWhile jsWs =
      (k0 :: kt) ++ (' ' :: c) := by
    rw [List.dropWhile_cons]
    simp only [show jsWs (' ') = true from by decide, if_true, List.cons_append]
    exact dropWhile_cons_false hk0 _
  rw [hd1, hne]
  simp

theorem recog_when_line (c : List Char) (hc : validClause c = true) :
    titleCapture (whenLinePre ++ c) = none ∧
    sectionHeadingTest purposeLit (whenLinePre ++ c) = false ∧
    sectionHeadingTest requirementsLit (whenLinePre ++ c) = false ∧
    reqCapture (whenLinePre ++ c) = none ∧
    scenCapture (whenLinePre ++ c) = none ∧
    clauseCapture whenKw (whenLinePre ++ c) = some c := by
  refine ⟨?_, ?_, ?_, ?_, ?_, ?_⟩
  · exact headCapture_mismatch _ _ _
      (isPrefixOf_append_false_le _ _ _ (by decide) (by decide))
  · exact sectionHeadingTest_mismatch _ _ _
      (isPrefixOf_append_false_le _ _ _ (by decide) (by decide))
  · exact sectionHeadingTest_mismatch _ _ _
      (isPrefixOf_append_false_rev _ _ _ (by decide) (by decide))
  · exact headCapture_mismatch _ _ _
      (isPrefixOf_append_false_rev _ _ _ (by decide) (by decide))
  · exact headCapture_mismatch _ _ _
      (isPrefixOf_append_false_rev _ _ _ (by decide) (by decide))
  · exact clauseCapture_self ('*') (("*WHEN**").data) c (by decide) hc

theorem recog_then_line (c : List Char) (hc : validClause c = true) :
    titleCapture (thenLinePre ++ c) = none ∧
    sectionHeadingTest purposeLit (thenLinePre ++ c) = false ∧
    sectionHeadingTest requirementsLit (thenLinePre ++ c) = false ∧
    reqCapture (thenLinePre ++ c) = none ∧
    scenCapture (thenLinePre ++ c) = none ∧
    clauseCapture whenKw (thenLinePre ++ c) = none ∧
    clauseCapture thenKw (thenLinePre ++ c) = some c := by
  refine ⟨?_, ?_, ?_, ?_, ?_, ?_, ?_⟩
  · exact headCapture_mismatch _ _ _
      (isPrefixOf_append_false_le _ _ _ (by decide) (by decide))
  · exact sectionHeadingTest_mismatch _ _ _
      (isPrefixOf_append_false_le _ _ _ (by decide) (by decide))
  · exact sectionHeadingTest_mismatch _ _ _
      (isPrefixOf_append_false_rev _ _ _ (by decide) (by decide))
  · exact headCapture_mismatch _ _ _
      (isPrefixOf_append_false_rev _ _ _ (by decide) (by decide))
  · exact headCapture_mismatch _ _ _
      (isPrefixOf_append_false_rev _ _ _ (by decide) (by decide))
  · exact clauseCapture_other whenKw ('*') (("*THEN**").data) c (by decide)
      (isPrefixOf_append_false_le _ _ _ (by decide) (by decide))
  · exact clauseCapture_self ('*') (("*THEN**").data) c (by decide) hc

theorem recog_and_line (c : List Char) (hc : validClause c = true) :
    titleCapture (andLinePre ++ c) = none ∧
    sectionHeadingTest purposeLit (andLinePre ++ c) = false ∧
    sectionHeadingTest requirementsLit (andLinePre ++ c) = false ∧
    reqCapture (andLinePre ++ c) = none ∧
    scenCapture (andLinePre ++ c) = none ∧
    clauseCapture whenKw (andLinePre ++ c) = none ∧
    clauseCapture thenKw (andLinePre ++ c) = none ∧
    clauseCapture andKw (andLinePre ++ c) = some c := by
  refine ⟨?_, ?_, ?_, ?_, ?_, ?_, ?_, ?_⟩
  · exact headCapture_mismatch _ _ _
      (isPrefixOf_append_false_le _ _ _ (by decide) (by decide))
  · exact sectionHeadingTest_mismatch _ _ _
      (isPrefixOf_append_false_le _ _ _ (by decide) (by decide))
  · exact sectionHeadingTest_mismatch _ _ _
      (isPrefixOf_append_false_rev _ _ _ (by decide) (by decide))
  · exact headCapture_mismatch _ _ _
      (isPrefixOf_append_false_rev _ _ _ (by decide) (by decide))
  · exact headCapture_mismatch _ _ _
      (isPrefixOf_append_false_rev _ _ _ (by decide) (by decide))
  · exact clauseCapture_other whenKw ('*') (("*AND**").data) c (by decide)
      (isPrefixOf_append_false_rev _ _ _ (by decide) (by decide))
  · exact clauseCapture_other thenKw ('*') (("*AND**").data) c (by decide)
      (isPrefixOf_append_false_rev _ _ _ (by decide) (by decide))
  · exact clauseCapture_self ('*') (("*AND**").data) c (by decide) hc

theorem projStep_req (p : ProjState) (n : List Char) (h : validName n = true) :
    projStep p (reqLit ++ n) =
      { title := p.title, reqs := p.reqs ++ reqFlushList p,
        curReq := some (n, []), curScen := none } := by
  obtain ⟨r1, r2, r3, r4⟩ := recog_req_line n h
  simp [projStep, r1, r2, r3, r4]

theorem projStep_scen (p : ProjState) (n : List Char) (h : validName n = true) :
    projStep p (scenLit ++ n) =
      { p with
        curReq :=
          (match p.curScen, p.curReq with
          | some sc, some (rn, scs) => some (rn, scs ++ [sc])
          | _, _ => p.curReq),
        curScen :=
          some { name := n, whenClause := [], thenClauses := [], andClauses := [] } } := by
  obtain ⟨r1, r2, r3, r4, r5⟩ := recog_scen_line n h
  simp [projStep, r1, r2, r3, r4, r5]

theorem projStep_when (p : ProjState) (c : List Char) (sc : Scenario)
    (hc : validClause c = true) (hcs : p.curScen = some sc) :
    projStep p (whenLinePre ++ c) =
      { p with curScen := some { sc with whenClause := c } } := by
  obtain ⟨r1, r2, r3, r4, r5, r6⟩ := recog_when_line c hc
  simp [projStep, r1, r2, r3, r4, r5, r6, hcs]

theorem projStep_then (p : ProjState) (c : List Char) (sc : Scenario)
    (hc : validClause c = true) (hcs : p.curScen = some sc) :
    projStep p (thenLinePre ++ c) =
      { p with curScen := some { sc with thenClauses := sc.thenClauses ++ [c] } } := by
  obtain ⟨r1, r2, r3, r4, r5, r6, r7⟩ := recog_then_line c hc
  simp [projStep, r1, r2, r3, r4, r5, r6, r7, hcs]

theorem projStep_and (p : ProjState) (c : List Char) (sc : Scenario)
    (hc : validClause c = true) (hcs : p.curScen = some sc) :
    projStep p (andLinePre ++ c) =
      { p with curScen := some { sc with andClauses := sc.andClauses ++ [c] } } := by
  obtain ⟨r1, r2, r3, r4, r5, r6, r7, r8⟩ := recog_and_line c hc
  simp [projStep, r1, r2, r3, r4, r5, r6, r7, r8, hcs]

theorem projStep_blank (p : ProjState) : projStep p [] = p := by
  have h1 : titleCapture [] = none := by decide
  have h2 : sectionHeadingTest purposeLit [] = false := by decide
  have h3 : sectionHeadingTest requirementsLit [] = false := by decide
  have h4 : reqCapture [] = none := by decide
  have h5 : scenCapture [] = none := by decide
  have h6 : clauseCapture whenKw [] = none := by decide
  have h7 : clauseCapture thenKw [] = none := by decide
  have h8 : clauseCapture andKw [] = none := by decide
  simp [projStep, h1, h2, h3, h4, h5, h6, h7, h8]

theorem projStep_inert (p : ProjState) (l : List Char) (hi : inertLine l = true)
    (hcs : p.curScen = none) : projStep p l = p := by
  have hi2 := hi
  simp only [inertLine, Bool.and_eq_true, Option.isNone_iff_eq_none] at hi2
  obtain ⟨⟨h1, h2⟩, h3⟩ := hi2
  unfold projStep
  rw [h1, h2, h3]
  by_cases hp : sectionHeadingTest purposeLit l = true
  · simp [hp]
  · by_cases hq : sectionHeadingTest requirementsLit l = true
    · simp [hp, hq]
    · rcases hw : clauseCapture whenKw l with _ | cw <;>
        rcases ht2 : clauseCapture thenKw l with _ | ct <;>
        rcases ha : clauseCapture andKw l with _ | ca <;>
        simp [hp, hq, hw, ht2, ha, hcs]

/-! ## Newline-freedom of serialized lines -/

theorem dotChar_no_newline (l : List Char) (h : l.all dotChar = true) : ('\n') ∉ l := by
  intro hm
  have hd := List.all_eq_true.mp h _ hm
  simp [dotChar] at hd

theorem no_newline_append (a b : List Char) (ha : ('\n') ∉ a) (hb : ('\n') ∉ b) :
    ('\n') ∉ a ++ b := by
  intro h
  rcases List.mem_append.mp h with h | h
  · exact ha h
  · exact hb h

theorem validName_dotChar (n : List Char) (h : validName n = true) : n.all dotChar = true := by
  simp only [validName, Bool.and_eq_true] at h
  exact h.2

theorem validClause_dotChar (c : List Char) (h : validClause c = true) :
    c.all dotChar = true := by
  cases c with
  | nil => simp [validClause] at h
  | cons a as =>
    simp only [validClause, Bool.and_eq_true] at h
    exact h.2

/-! ## C5: a later WHEN line overwrites the earlier one -/

/-- C5 (amended): when a scenario contains two WHEN clause lines, the
scenario's `when` field holds the clause of the LAST such line — each WHEN
line assigns `when`, so a later occurrence silently overwrites an earlier
one — and no error is raised at parse time (the parser is a total
function). -/
theorem parseSpec_last_when (r s w1 w2 t : List Char)
    (hr : validName r = true) (hs : validName s = true)
    (hw1 : validClause w1 = true) (hw2 : validClause w2 = true)
    (ht : validClause t = true) :
    (parseSpec (joinLines
      [reqLit ++ r, scenLit ++ s, whenLinePre ++ w1, whenLinePre ++ w2,
        thenLinePre ++ t])).requirements.map reqProj =
      [(r, [{ name := s, whenClause := w2, thenClauses := [t], andClauses := [] }])] := by
  have hnl : ∀ l ∈ [reqLit ++ r, scenLit ++ s, whenLinePre ++ w1, whenLinePre ++ w2,
      thenLinePre ++ t], ('\n') ∉ l := by
    intro l hl
    simp only [List.mem_cons, List.not_mem_nil, or_false] at hl
    rcases hl with h | h | h | h | h <;> subst h
    · exact no_newline_append _ _ (by decide) (dotChar_no_newline r (validName_dotChar r hr))
    · exact no_newline_append _ _ (by decide) (dotChar_no_newline s (validName_dotChar s hs))
    · exact no_newline_append _ _ (by decide)
        (dotChar_no_newline w1 (validClause_dotChar w1 hw1))
    · exact no_newline_append _ _ (by decide)
        (dotChar_no_newline w2 (validClause_dotChar w2 hw2))
    · exact no_newline_append _ _ (by decide) (dotChar_no_newline t (validClause_dotChar t ht))
  unfold parseSpec
  rw [splitLines_joinLines _ (List.cons_ne_nil _ _) hnl]
  rw [finishParse_req_proj, sProj_foldl]
  have h0 : sProj initPState = (⟨[], [], none, none⟩ : ProjState) := rfl
  rw [h0]
  have e1 : projStep ⟨[], [], none, none⟩ (reqLit ++ r)
      = (⟨[], [], some (r, []), none⟩ : ProjState) := by
    rw [projStep_req _ r hr]
    rfl
  have e2 : projStep (⟨[], [], some (r, []), none⟩ : ProjState) (scenLit ++ s)
      = (⟨[], [], some (r, []), some ⟨s, [], [], []⟩⟩ : ProjState) := by
    rw [projStep_scen _ s hs]
  have e3 : projStep (⟨[], [], some (r, []), some ⟨s, [], [], []⟩⟩ : ProjState)
      (whenLinePre ++ w1)
      = (⟨[], [], some (r, []), some ⟨s, w1, [], []⟩⟩ : ProjState) := by
    rw [projStep_when _ w1 ⟨s, [], [], []⟩ hw1 rfl]
  have e4 : projStep (⟨[], [], some (r, []), some ⟨s, w1, [], []⟩⟩ : ProjState)
      (whenLinePre ++ w2)
      = (⟨[], [], some (r, []), some ⟨s, w2, [], []⟩⟩ : ProjState) := by
    rw [projStep_when _ w2 ⟨s, w1, [], []⟩ hw2 rfl]
  have e5 : projStep (⟨[], [], some (r, []), some ⟨s, w2, [], []⟩⟩ : ProjState)
      (thenLinePre ++ t)
      = (⟨[], [], some (r, []), some ⟨s, w2, [t], []⟩⟩ : ProjState) := by
    rw [projStep_then _ t ⟨s, w2, [], []⟩ ht rfl]
    rfl
  simp only [List.foldl_cons, List.foldl_nil, e1, e2, e3, e4, e5]
  simp [projFinish, reqFlushList, optList]

/-- C5 (counterexample): with two WHEN lines under one scenario the parsed
`when` field holds the SECOND clause, not the first. -/
theorem parseSpec_last_when_counterexample :
    ((parseSpec (("### Requirement: R\n#### Scenario: S\n- **WHEN** first\n- **WHEN** second\n- **THEN** t").data)).requirements.map
        (fun r => r.scenarios.map (fun sc => sc.whenClause))) = [[("second").data]] ∧
    ((parseSpec (("### Requirement: R\n#### Scenario: S\n- **WHEN** first\n- **WHEN** second\n- **THEN** t").data)).requirements.map
        (fun r => r.scenarios.map (fun sc => sc.whenClause))) ≠ [[("first").data]] := by
  constructor
  · decide
  · decide

theorem parseSpec_last_when_witness :
    (parseSpec (joinLines
      [reqLit ++ ("R").data, scenLit ++ ("S").data, whenLinePre ++ ("first").data,
        whenLinePre ++ ("second").data,
        thenLinePre ++ ("t").data])).requirements.map reqProj =
      [(("R").data,
        [{ name := ("S").data, whenClause := ("second").data,
           thenClauses := [("t").data], andClauses := [] }])] :=
  parseSpec_last_when (("R").data) (("S").data) (("first").data) (("second").data)
    (("t").data) (by decide) (by decide) (by decide) (by decide) (by decide)

/-! ## splitLines / joinLines on multi-line entries -/

theorem splitLines_append_any : ∀ x y : List Char,
    splitLines (x ++ '\n' :: y) = splitLines x ++ splitLines y := by
  intro x
  induction x with
  | nil => intro y; simp [splitLines]
  | cons c cs ih =>
    intro y
    by_cases hc : c = '\n'
    · subst hc
      show splitLines ('\n' :: (cs ++ '\n' :: y)) = splitLines ('\n' :: cs) ++ splitLines y
      simp [splitLines, ih]
    · show splitLines (c :: (cs ++ '\n' :: y)) = splitLines (c :: cs) ++ splitLines y
      simp only [splitLines, if_neg hc]
      rw [ih]
      rcases h : splitLines cs with _ | ⟨l, ls⟩
      · exact absurd h (splitLines_ne_nil cs)
      · simp

theorem splitLines_joinLines_flat : ∀ ls : List (List Char), ls ≠ [] →
    splitLines (joinLines ls) = (ls.map splitLines).flatten := by
  intro ls
  induction ls with
  | nil => intro h; exact absurd rfl h
  | cons l rest ih =>
    intro _
    cases rest with
    | nil =>
      show splitLines (joinLines [l]) = _
      simp [joinLines]
    | cons l2 r2 =>
      show splitLines (l ++ '\n' :: joinLines (l2 :: r2)) = _
      rw [splitLines_append_any, ih (by simp)]
      simp

theorem flatten_map_splitLines : ∀ ls : List (List Char), (∀ l ∈ ls, ('\n') ∉ l) →
    (ls.map splitLines).flatten = ls := by
  intro ls
  induction ls with
  | nil => intro _; rfl
  | cons l rest ih =>
    intro h
    simp only [List.map_cons, List.flatten_cons]
    rw [splitLines_no_newline l (h l (List.mem_cons_self _ _)),
      ih (fun x hx => h x (List.mem_cons_of_mem _ hx))]
    rfl

/-! ## The serialized title line round-trips -/

theorem jsTrim_dropWhile_id (l : List Char) (h : l = [] ∨ jsWs (l.headD ' ') = false) :
    l.dropWhile jsWs = l := by
  cases l with
  | nil => rfl
  | cons c cs =>
    rcases h with h | h
    · exact absurd h (by simp)
    · rw [List.headD_cons] at h
      simp [List.dropWhile_cons, h]

theorem jsTrim_id (l : List Char) (h1 : l = [] ∨ jsWs (l.headD ' ') = false)
    (h2 : l = [] ∨ jsWs (l.getLastD ' ') = false) : jsTrim l = l := by
  rcases List.eq_nil_or_concat l with h | ⟨L, b, h⟩
  · subst h; rfl
  · subst h
    rw [List.concat_eq_append] at h1 h2 ⊢
    unfold jsTrim
    rw [jsTrim_dropWhile_id _ h1]
    have hrev : (L ++ [b]).reverse = b :: L.reverse := List.reverse_concat _ _
    rw [hrev]
    have hh : (b :: L.reverse) = [] ∨ jsWs ((b :: L.reverse).headD ' ') = false := by
      right
      rw [List.headD_cons]
      rcases h2 with h2 | h2
      · simp at h2
      · rw [List.getLastD_concat] at h2
        exact h2
    rw [jsTrim_dropWhile_id _ hh, ← hrev, List.reverse_reverse]

theorem dropWhile_ne_nil_of_last (l : List Char) (hlast : jsWs (l.getLastD ' ') = false)
    (hne : l ≠ []) : l.dropWhile jsWs ≠ [] := by
  intro hd
  rw [List.dropWhile_eq_nil_iff] at hd
  rcases List.eq_nil_or_concat l with h | ⟨L, b, h⟩
  · exact hne h
  · subst h
    rw [List.concat_eq_append] at hlast hd
    rw [List.getLastD_concat] at hlast
    have hb := hd b (by simp)
    rw [hb] at hlast
    exact absurd hlast (by decide)

theorem matchesSuffixAt_pad (x : List Char) (hlast : jsWs (x.getLastD ' ') = false)
    (hne : x ≠ []) : matchesSuffixAt (x ++ ' ' :: specWord) = false := by
  have hd : x.dropWhile jsWs ≠ [] := dropWhile_ne_nil_of_last x hlast hne
  unfold matchesSuffixAt
  rw [List.dropWhile_append]
  rw [if_neg (by simpa using hd)]
  show (ciPrefixOf specWord (List.dropWhile jsWs x ++ ' ' :: specWord) &&
      ((List.dropWhile jsWs x ++ ' ' :: specWord).drop specWord.length).all jsWs) = false
  have hsplit : (' ' :: specWord) = (' ' :: ("Specificatio").data) ++ [('n')] := by decide
  rw [hsplit, ← List.append_assoc]
  have h13 : specWord.length = 13 := by decide
  rw [List.drop_append_of_le_length
    (by rw [h13]; simp [List.length_append, List.length_cons])]
  rw [List.all_append]
  have hn : (([('n')]).all jsWs) = false := by decide
  rw [hn, Bool.and_false, Bool.and_false]

theorem stripSpecSuffix_pad : ∀ t : List Char,
    t = [] ∨ jsWs (t.getLastD ' ') = false →
    stripSpecSuffix (t ++ ' ' :: specWord) = t := by
  intro t
  induction t with
  | nil =>
    intro _
    show stripSpecSuffix (' ' :: specWord) = []
    have hm : matchesSuffixAt (' ' :: specWord) = true := by decide
    simp [stripSpecSuffix, hm]
  | cons c cs ih =>
    intro h
    rcases h with h | h
    · exact absurd h (by simp)
    · have hm : matchesSuffixAt (c :: (cs ++ ' ' :: specWord)) = false := by
        have hx := matchesSuffixAt_pad (c :: cs) h (List.cons_ne_nil c cs)
        rw [List.cons_append] at hx
        exact hx
      rw [List.cons_append]
      simp only [stripSpecSuffix]
      rw [if_neg (by simp [hm])]
      have hcs : cs = [] ∨ jsWs (cs.getLastD ' ') = false := by
        cases cs with
        | nil => exact Or.inl rfl
        | cons c2 cs2 =>
          right
          rw [List.getLastD_cons] at h
          rw [List.getLastD_cons] at h ⊢
          exact h
      rw [ih hcs]

theorem title_roundtrip (t : List Char) (ht : validTitle t = true) :
    jsTrim (stripSpecSuffix (t ++ ' ' :: specWord)) = t := by
  have h4 := ht
  simp only [validTitle, Bool.and_eq_true, Bool.not_eq_true'] at h4
  obtain ⟨⟨⟨hne, hdot⟩, hhead⟩, hlast⟩ := h4
  rw [stripSpecSuffix_pad t (Or.inr hlast)]
  exact jsTrim_id t (Or.inr hhead) (Or.inr hlast)

theorem validName_title_pad (t : List Char) (ht : validTitle t = true) :
    validName (t ++ ' ' :: specWord) = true := by
  have h4 := ht
  simp only [validTitle, Bool.and_eq_true, Bool.not_eq_true'] at h4
  obtain ⟨⟨⟨hne, hdot⟩, _⟩, _⟩ := h4
  simp only [validName, Bool.and_eq_true]
  constructor
  · simp
  · rw [List.all_append, hdot]
    have hsw : ((' ' :: specWord).all dotChar) = true := by decide
    rw [hsw]
    rfl

/-! ## Heading lines under the projection -/

theorem projStep_titleLine (p : ProjState) (x : List Char) (h : validName x = true) :
    projStep p (titleLit ++ x) = { p with title := jsTrim (stripSpecSuffix x) } := by
  have h1 : titleCapture (titleLit ++ x) = some x := headCapture_self titleLit x h
  simp [projStep, h1]

theorem projStep_purposeLine (p : ProjState) : projStep p purposeLit = p := by
  have h1 : titleCapture purposeLit = none := by decide
  have h2 : sectionHeadingTest purposeLit purposeLit = true := by decide
  simp [projStep, h1, h2]

theorem projStep_requirementsLine (p : ProjState) : projStep p requirementsLit = p := by
  have h1 : titleCapture requirementsLit = none := by decide
  have h2 : sectionHeadingTest purposeLit requirementsLit = false := by decide
  have h3 : sectionHeadingTest requirementsLit requirementsLit = true := by decide
  simp [projStep, h1, h2, h3]

theorem foldl_inert : ∀ (ls : List (List Char)) (p : ProjState),
    ls.all inertLine = true → p.curScen = none → ls.foldl projStep p = p := by
  intro ls
  induction ls with
  | nil => intro p _ _; rfl
  | cons l rest ih =>
    intro p hall hcs
    simp only [List.all_cons, Bool.and_eq_true] at hall
    rw [List.foldl_cons, projStep_inert p l hall.1 hcs]
    exact ih p hall.2 hcs

/-! ## Scenario blocks under the projection -/

theorem foldl_then : ∀ (ts : List (List Char)) (p : ProjState) (sc : Scenario),
    ts.all validClause = true → p.curScen = some sc →
    (ts.map (fun t => thenLinePre ++ t)).foldl projStep p =
      { p with curScen := some { sc with thenClauses := sc.thenClauses ++ ts } } := by
  intro ts
  induction ts with
  | nil =>
    intro p sc _ hp
    simp only [List.map_nil, List.foldl_nil, List.append_nil]
    have he : ({ sc with thenClauses := sc.thenClauses } : Scenario) = sc := rfl
    rw [he, ← hp]
  | cons t ts ih =>
    intro p sc hall hp
    simp only [List.all_cons, Bool.and_eq_true] at hall
    rw [List.map_cons, List.foldl_cons, projStep_then p t sc hall.1 hp]
    rw [ih _ _ hall.2 rfl]
    simp [List.append_assoc]

theorem foldl_and : ∀ (as : List (List Char)) (p : ProjState) (sc : Scenario),
    as.all validClause = true → p.curScen = some sc →
    (as.map (fun a => andLinePre ++ a)).foldl projStep p =
      { p with curScen := some { sc with andClauses := sc.andClauses ++ as } } := by
  intro as
  induction as with
  | nil =>
    intro p sc _ hp
    simp only [List.map_nil, List.foldl_nil, List.append_nil]
    have he : ({ sc with andClauses := sc.andClauses } : Scenario) = sc := rfl
    rw [he, ← hp]
  | cons a as ih =>
    intro p sc hall hp
    simp only [List.all_cons, Bool.and_eq_true] at hall
    rw [List.map_cons, List.foldl_cons, projStep_and p a sc hall.1 hp]
    rw [ih _ _ hall.2 rfl]
    simp [List.append_assoc]

theorem foldl_scenarioLines (sc : Scenario) (hv : validScenario sc = true)
    (p : ProjState) (rn : List Char) (scs : List Scenario)
    (hcr : p.curReq = some (rn, scs)) :
    (scenarioLines sc).foldl projStep p =
      { p with
        curReq := some (rn, scs ++ optList p.curScen),
        curScen := some sc } := by
  obtain ⟨sn, sw, sts, sas⟩ := sc
  simp only [validScenario, Bool.and_eq_true, Bool.not_eq_true'] at hv
  obtain ⟨⟨⟨⟨hn, hw⟩, hte⟩, hts⟩, has⟩ := hv
  have e1 : projStep p (scenLit ++ sn) =
      { p with
        curReq := some (rn, scs ++ optList p.curScen),
        curScen := some ⟨sn, [], [], []⟩ } := by
    rw [projStep_scen p sn hn]
    rcases hq : p.curScen with _ | q
    · rw [hcr]
      simp [optList]
    · rw [hcr]
      simp [optList]
  have e2 : projStep
      { p with
        curReq := some (rn, scs ++ optList p.curScen),
        curScen := some (⟨sn, [], [], []⟩ : Scenario) } (whenLinePre ++ sw) =
      { p with
        curReq := some (rn, scs ++ optList p.curScen),
        curScen := some ⟨sn, sw, [], []⟩ } := by
    rw [projStep_when _ sw ⟨sn, [], [], []⟩ hw rfl]
  have e3 : (sts.map (fun t => thenLinePre ++ t)).foldl projStep
      { p with
        curReq := some (rn, scs ++ optList p.curScen),
        curScen := some (⟨sn, sw, [], []⟩ : Scenario) } =
      { p with
        curReq := some (rn, scs ++ optList p.curScen),
        curScen := some ⟨sn, sw, sts, []⟩ } := by
    rw [foldl_then sts _ ⟨sn, sw, [], []⟩ hts rfl]
    rfl
  have e4 : (sas.map (fun a => andLinePre ++ a)).foldl projStep
      { p with
        curReq := some (rn, scs ++ optList p.curScen),
        curScen := some (⟨sn, sw, sts, []⟩ : Scenario) } =
      { p with
        curReq := some (rn, scs ++ optList p.curScen),
        curScen := some ⟨sn, sw, sts, sas⟩ } := by
    rw [foldl_and sas _ ⟨sn, sw, sts, []⟩ has rfl]
    rfl
  simp only [scenarioLines]
  rw [List.foldl_append, List.foldl_append, List.foldl_append]
  simp only [List.foldl_cons, List.foldl_nil]
  rw [e1, e2, e3, e4, projStep_blank]

theorem scensEnd_flush : ∀ (scl : List Scenario) (acc : List Scenario) (q : Option Scenario),
    (scensEnd acc q scl).1 ++ optList (scensEnd acc q scl).2 = acc ++ optList q ++ scl := by
  intro scl
  induction scl with
  | nil => intro acc q; simp [scensEnd]
  | cons sc rest ih =>
    intro acc q
    show (scensEnd (acc ++ optList q) (some sc) rest).1 ++
        optList (scensEnd (acc ++ optList q) (some sc) rest).2 = acc ++ optList q ++ sc :: rest
    rw [ih]
    simp [optList]

theorem foldl_scen_blocks : ∀ (scl : List Scenario) (p : ProjState) (rn : List Char)
    (scs : List Scenario), scl.all validScenario = true → p.curReq = some (rn, scs) →
    ((scl.map scenarioLines).flatten).foldl projStep p =
      { p with
        curReq := some (rn, (scensEnd scs p.curScen scl).1),
        curScen := (scensEnd scs p.curScen scl).2 } := by
  intro scl
  induction scl with
  | nil =>
    intro p rn scs _ hcr
    show p = _
    obtain ⟨pt, pr, pc, ps⟩ := p
    simp only [scensEnd]
    simp only [sProj] at hcr
    rw [← hcr]
  | cons sc rest ih =>
    intro p rn scs hall hcr
    simp only [List.all_cons, Bool.and_eq_true] at hall
    simp only [List.map_cons, List.flatten_cons]
    rw [List.foldl_append]
    rw [foldl_scenarioLines sc hall.1 p rn scs hcr]
    rw [ih _ rn (scs ++ optList p.curScen) hall.2 rfl]
    show _ =
      { p with
        curReq := some (rn, (scensEnd (scs ++ optList p.curScen) (some sc) rest).1),
        curScen := (scensEnd (scs ++ optList p.curScen) (some sc) rest).2 }
    rfl

/-! ## Requirement blocks under the projection -/

theorem scenarioLines_no_newline (sc : Scenario) (hv : validScenario sc = true) :
    ∀ l ∈ scenarioLines sc, ('\n') ∉ l := by
  obtain ⟨sn, sw, sts, sas⟩ := sc
  simp only [validScenario, Bool.and_eq_true, Bool.not_eq_true'] at hv
  obtain ⟨⟨⟨⟨hn, hw⟩, hte⟩, hts⟩, has⟩ := hv
  intro l hl
  simp only [scenarioLines] at hl
  rcases List.mem_append.mp hl with h | h
  · rcases List.mem_append.mp h with h | h
    · rcases List.mem_append.mp h with h | h
      · simp only [List.mem_cons, List.not_mem_nil, or_false] at h
        rcases h with rfl | rfl
        · exact no_newline_append _ _ (by decide)
            (dotChar_no_newline _ (validName_dotChar _ hn))
        · exact no_newline_append _ _ (by decide)
            (dotChar_no_newline _ (validClause_dotChar _ hw))
      · rw [List.mem_map] at h
        obtain ⟨t, ht2, rfl⟩ := h
        exact no_newline_append _ _ (by decide)
          (dotChar_no_newline _ (validClause_dotChar _ (List.all_eq_true.mp hts t ht2)))
    · rw [List.mem_map] at h
      obtain ⟨a, ha2, rfl⟩ := h
      exact no_newline_append _ _ (by decide)
        (dotChar_no_newline _ (validClause_dotChar _ (List.all_eq_true.mp has a ha2)))
  · simp only [List.mem_cons, List.not_mem_nil, or_false] at h
    subst h
    simp

theorem reqStream_eq (r : Requirement) (hv : validRequirement r = true) :
    reqStream r = (reqLit ++ r.name) :: ([] : List Char) ::
      ((if r.description.isEmpty then [] else splitLines r.description ++ [[]]) ++
        (r.scenarios.map scenarioLines).flatten) := by
  have hparts := hv
  simp only [validRequirement, Bool.and_eq_true] at hparts
  obtain ⟨⟨hn, hd⟩, hscl⟩ := hparts
  unfold reqStream requirementLines
  rw [List.map_append, List.map_append, List.flatten_append, List.flatten_append]
  have h1 : (([reqLit ++ r.name, []] : List (List Char)).map splitLines).flatten
      = [reqLit ++ r.name, []] := by
    apply flatten_map_splitLines
    intro l hl
    simp only [List.mem_cons, List.not_mem_nil, or_false] at hl
    rcases hl with rfl | rfl
    · exact no_newline_append _ _ (by decide)
        (dotChar_no_newline _ (validName_dotChar _ hn))
    · simp
  rw [h1]
  have h3 : (((r.scenarios.map scenarioLines).flatten).map splitLines).flatten
      = (r.scenarios.map scenarioLines).flatten := by
    apply flatten_map_splitLines
    intro l hl
    rw [List.mem_flatten] at hl
    obtain ⟨li, hli, hl2⟩ := hl
    rw [List.mem_map] at hli
    obtain ⟨sc, hsc, rfl⟩ := hli
    exact scenarioLines_no_newline sc (List.all_eq_true.mp hscl sc hsc) l hl2
  rw [h3]
  by_cases hde : r.description.isEmpty
  · rw [if_pos hde, if_pos hde]
    simp
  · rw [if_neg hde, if_neg hde]
    simp [splitLines]

theorem foldl_reqStream (r : Requirement) (hv : validRequirement r = true) (p : ProjState) :
    (reqStream r).foldl projStep p =
      { title := p.title,
        reqs := p.reqs ++ reqFlushList p,
        curReq := some (r.name, (scensEnd [] none r.scenarios).1),
        curScen := (scensEnd [] none r.scenarios).2 } := by
  have hparts := hv
  simp only [validRequirement, Bool.and_eq_true] at hparts
  obtain ⟨⟨hn, hdesc⟩, hscl⟩ := hparts
  have hdesc2 : (splitLines r.description).all inertLine = true := hdesc
  rw [reqStream_eq r hv]
  rw [List.foldl_cons, projStep_req p r.name hn]
  rw [List.foldl_cons, projStep_blank]
  rw [List.foldl_append]
  by_cases hde : r.description.isEmpty
  · rw [if_pos hde]
    simp only [List.foldl_nil]
    rw [foldl_scen_blocks r.scenarios _ r.name [] hscl rfl]
  · rw [if_neg hde]
    rw [List.foldl_append]
    rw [foldl_inert (splitLines r.description) _ hdesc2 rfl]
    rw [List.foldl_cons, List.foldl_nil, projStep_blank]
    rw [foldl_scen_blocks r.scenarios _ r.name [] hscl rfl]

theorem foldl_reqs_run : ∀ (rl : List Requirement) (p : ProjState),
    rl.all validRequirement = true →
    ((rl.map reqStream).flatten.foldl projStep p).title = p.title ∧
    projFinish ((rl.map reqStream).flatten.foldl projStep p) =
      projFinish p ++ rl.map reqProj := by
  intro rl
  induction rl with
  | nil =>
    intro p _
    exact ⟨rfl, by simp⟩
  | cons r rest ih =>
    intro p hall
    simp only [List.all_cons, Bool.and_eq_true] at hall
    simp only [List.map_cons, List.flatten_cons]
    rw [List.foldl_append]
    rw [foldl_reqStream r hall.1 p]
    obtain ⟨iht, ihf⟩ := ih _ hall.2
    constructor
    · rw [iht]
    · rw [ihf]
      have hflush : projFinish
          { title := p.title,
            reqs := p.reqs ++ reqFlushList p,
            curReq := some (r.name, (scensEnd [] none r.scenarios).1),
            curScen := (scensEnd [] none r.scenarios).2 } =
          projFinish p ++ [(r.name, r.scenarios)] := by
        simp only [projFinish, reqFlushList]
        rw [scensEnd_flush]
        simp [optList, List.append_assoc]
      rw [hflush]
      simp [reqProj, List.append_assoc]

theorem validTitle_dotChar (t : List Char) (h : validTitle t = true) :
    t.all dotChar = true := by
  simp only [validTitle, Bool.and_eq_true, Bool.not_eq_true'] at h
  exact h.1.1.2

theorem flatten_reqLines : ∀ rl : List Requirement,
    (((rl.map requirementLines).flatten).map splitLines).flatten =
      (rl.map reqStream).flatten := by
  intro rl
  induction rl with
  | nil => rfl
  | cons r rest ih =>
    simp only [List.map_cons, List.flatten_cons, List.map_append, List.flatten_append]
    rw [ih]
    rfl

theorem specStream_eq (S : Spec) (hv : validSpec S = true) :
    ((specLines S).map splitLines).flatten =
      (titleLit ++ S.title ++ (' ' :: specWord)) :: ([] : List Char) ::
        ((if S.purpose.isEmpty then [] else purposeLit :: ([] : List Char) ::
            (splitLines S.purpose ++ [[]])) ++
          (requirementsLit :: ([] : List Char) ::
            (S.requirements.map reqStream).flatten)) := by
  have hparts := hv
  simp only [validSpec, Bool.and_eq_true] at hparts
  obtain ⟨⟨ht, hpur⟩, hreq⟩ := hparts
  unfold specLines
  rw [List.map_append, List.map_append, List.map_append,
    List.flatten_append, List.flatten_append, List.flatten_append]
  have h1 : ((([titleLit ++ S.title ++ (' ' :: specWord), []]) :
      List (List Char)).map splitLines).flatten =
      [titleLit ++ S.title ++ (' ' :: specWord), []] := by
    apply flatten_map_splitLines
    intro l hl
    simp only [List.mem_cons, List.not_mem_nil, or_false] at hl
    rcases hl with rfl | rfl
    · exact no_newline_append _ _
        (no_newline_append _ _ (by decide) (dotChar_no_newline _ (validTitle_dotChar _ ht)))
        (by decide)
    · simp
  have h2 : ((([requirementsLit, []]) : List (List Char)).map splitLines).flatten =
      [requirementsLit, []] := by
    apply flatten_map_splitLines
    intro l hl
    simp only [List.mem_cons, List.not_mem_nil, or_false] at hl
    rcases hl with rfl | rfl
    · decide
    · simp
  rw [h1, h2, flatten_reqLines]
  by_cases hpe : S.purpose.isEmpty
  · rw [if_pos hpe, if_pos hpe]
    simp
  · rw [if_neg hpe, if_neg hpe]
    simp only [List.map_cons, List.map_nil, List.flatten_cons, List.flatten_nil]
    rw [splitLines_no_newline purposeLit (by decide)]
    simp [splitLines]

/-- C2 (amended): the round-trip holds for every Spec whose components
survive their own serialized lines — title non-empty, line-terminator-free
and trimmed; names non-empty and line-terminator-free; clauses additionally
not starting with whitespace (the clause regex trims leading whitespace on
re-parse); purpose and description lines not of heading shape — and it
preserves the title, the requirement names in order, and the scenarios
(names, when, then, and) in order under each requirement.  Descriptions
and the purpose are not claimed (the parser discards the purpose). -/
theorem serialize_parse_roundTrip (S : Spec) (hv : validSpec S = true) :
    (parseSpec (serializeSpec S)).title = S.title ∧
    (parseSpec (serializeSpec S)).requirements.map reqProj =
      S.requirements.map reqProj := by
  have hparts := hv
  simp only [validSpec, Bool.and_eq_true] at hparts
  obtain ⟨⟨ht, hpur⟩, hreq⟩ := hparts
  have hpur2 : (splitLines S.purpose).all inertLine = true := hpur
  unfold serializeSpec parseSpec
  rw [splitLines_joinLines_flat (specLines S) (by simp [specLines])]
  rw [specStream_eq S hv]
  have h0 : sProj initPState = (⟨[], [], none, none⟩ : ProjState) := rfl
  have hpre : ((titleLit ++ S.title ++ (' ' :: specWord)) :: ([] : List Char) ::
      ((if S.purpose.isEmpty then [] else purposeLit :: ([] : List Char) ::
          (splitLines S.purpose ++ [[]])) ++
        (requirementsLit :: ([] : List Char) ::
          (S.requirements.map reqStream).flatten))).foldl projStep ⟨[], [], none, none⟩ =
      (S.requirements.map reqStream).flatten.foldl projStep ⟨S.title, [], none, none⟩ := by
    rw [List.foldl_cons, List.append_assoc titleLit S.title (' ' :: specWord)]
    rw [projStep_titleLine _ _ (validName_title_pad S.title ht)]
    rw [title_roundtrip S.title ht]
    rw [List.foldl_cons, projStep_blank]
    show ((if S.purpose.isEmpty then [] else purposeLit :: ([] : List Char) ::
        (splitLines S.purpose ++ [[]])) ++
        (requirementsLit :: ([] : List Char) ::
          (S.requirements.map reqStream).flatten)).foldl projStep
        (⟨S.title, [], none, none⟩ : ProjState) =
      (S.requirements.map reqStream).flatten.foldl projStep ⟨S.title, [], none, none⟩
    by_cases hpe : S.purpose.isEmpty
    · rw [if_pos hpe]
      rw [List.nil_append]
      rw [List.foldl_cons, projStep_requirementsLine, List.foldl_cons, projStep_blank]
    · rw [if_neg hpe]
      rw [List.foldl_append]
      have hPP : (purposeLit :: ([] : List Char) ::
          (splitLines S.purpose ++ [[]])).foldl projStep
          (⟨S.title, [], none, none⟩ : ProjState) = ⟨S.title, [], none, none⟩ := by
        rw [List.foldl_cons, projStep_purposeLine, List.foldl_cons, projStep_blank]
        rw [List.foldl_append, foldl_inert (splitLines S.purpose) _ hpur2 rfl]
        rw [List.foldl_cons, List.foldl_nil, projStep_blank]
      rw [hPP]
      rw [List.foldl_cons, projStep_requirementsLine, List.foldl_cons, projStep_blank]
  constructor
  · rw [finishParse_title]
    have hb : ∀ st : PState, st.title = (sProj st).title := fun _ => rfl
    rw [hb, sProj_foldl, h0, hpre]
    exact (foldl_reqs_run S.requirements ⟨S.title, [], none, none⟩ hreq).1
  · rw [finishParse_req_proj, sProj_foldl, h0, hpre]
    rw [(foldl_reqs_run S.requirements ⟨S.title, [], none, none⟩ hreq).2]
    simp [projFinish, reqFlushList]

/-- C2 (counterexample): a Spec meeting the claim's stated validity
conditions — non-empty title, requirement and scenario names, non-empty
when, at least one then — whose WHEN clause starts with a space does not
round-trip: the clause regex of the parser swallows the leading space. -/
theorem roundTrip_counterexample :
    ((!rtCexSpec.title.isEmpty) = true ∧
      rtCexSpec.requirements.all (fun r => !r.name.isEmpty) = true ∧
      rtCexSpec.requirements.all (fun r => r.scenarios.all (fun sc =>
        !sc.name.isEmpty && !sc.whenClause.isEmpty && !sc.thenClauses.isEmpty)) = true) ∧
    (parseSpec (serializeSpec rtCexSpec)).requirements.map reqProj ≠
      rtCexSpec.requirements.map reqProj := by
  refine ⟨⟨by decide, by decide, by decide⟩, ?_⟩
  decide

theorem serialize_parse_roundTrip_witness :
    validSpec rtWitSpec = true ∧
    ((parseSpec (serializeSpec rtWitSpec)).title = rtWitSpec.title ∧
      (parseSpec (serializeSpec rtWitSpec)).requirements.map reqProj =
        rtWitSpec.requirements.map reqProj) :=
  ⟨by decide, serialize_parse_roundTrip rtWitSpec (by decide)⟩
